import Mathlib

/-!
Shallow embedding of ParmEd's Amber parameter-file machinery
(`parmed/amber/parameters.py`) and of the LJ 12-6-4 augmentation utility
(`parmed/tools/add1264.py`), together with theorems settling the
specification's claims about them.

Modelling conventions:
* Python `dict`s (which preserve insertion order and update values in
  place) are association lists with `dget`/`dset` below.
* Mutable records shared between several dictionary keys (bond, angle and
  dihedral types) are represented by an arena: the dictionary maps a key to
  an index into a list of records, so that "the same object" is "the same
  index".
* Python floats are modelled as exact rationals `ℚ`; `math.sqrt`, which is
  irrational in general, is passed in as an abstract function `msqrt`.
* Fallible code (Python exceptions) returns `Except String _`.
-/

set_option maxRecDepth 100000

namespace ParmEd

/-- Python `dict` lookup `d.get(k)`: the binding for a key, if present. -/
def dget {α β : Type} [DecidableEq α] : List (α × β) → α → Option β
  | [], _ => none
  | (k', v') :: rest, k => if k' = k then some v' else dget rest k

/-- Python `dict` assignment `d[k] = v`: replaces the value in place if the
key is present (keeping its position, as Python dicts do), else appends the
new binding at the end. -/
def dset {α β : Type} [DecidableEq α] : List (α × β) → α → β → List (α × β)
  | [], k, v => [(k, v)]
  | (k', v') :: rest, k, v =>
      if k' = k then (k, v) :: rest else (k', v') :: dset rest k v

/-- Keys bound in a Python dict (in insertion order). -/
def dkeys {α β : Type} (d : List (α × β)) : List α := d.map Prod.fst

/-! ### Executable rational arithmetic

The ambient `Rat` arithmetic of this toolchain is sealed `@[irreducible]`,
so concrete evaluations (`decide`-checked counterexamples and witnesses)
cannot reduce through it.  The model therefore computes with the following
wrappers, all built from `mkRat` (which reduces); bridge lemmas below
identify them with the standard field operations of `ℚ`, so the theorems
can be stated in ordinary notation. -/

/-- The rational `n / d` (by `mkRat`, normalized). -/
def q (n : Int) (d : Nat) : ℚ := mkRat n d

/-- Addition on `ℚ`, computably. -/
def qadd (a b : ℚ) : ℚ := mkRat (a.num * b.den + b.num * a.den) (a.den * b.den)

/-- Negation on `ℚ`, computably. -/
def qneg (a : ℚ) : ℚ := mkRat (-a.num) a.den

/-- Subtraction on `ℚ`, computably. -/
def qsub (a b : ℚ) : ℚ := qadd a (qneg b)

/-- Multiplication on `ℚ`, computably. -/
def qmul (a b : ℚ) : ℚ := mkRat (a.num * b.num) (a.den * b.den)

/-- Inverse on `ℚ`, computably. -/
def qinv (a : ℚ) : ℚ :=
  if a.num < 0 then mkRat (-(a.den : Int)) a.num.natAbs
  else mkRat (a.den : Int) a.num.natAbs

/-- Division on `ℚ`, computably. -/
def qdiv (a b : ℚ) : ℚ := qmul a (qinv b)

/-- Absolute value on `ℚ`, computably. -/
def qabs (a : ℚ) : ℚ := mkRat (a.num.natAbs : Int) a.den

/-- Largest `k ≤ fuel` with `k * k ≤ n` (an executable integer square
root; called with `fuel = n`). -/
def natSqrtLin : Nat → Nat → Nat
  | 0, _ => 0
  | k + 1, n => if (k + 1) * (k + 1) ≤ n then k + 1 else natSqrtLin k n

/-- Executable rational square root (numerator and denominator roots),
exact on perfect squares — where it agrees with `math.sqrt`. -/
def qsqrt (a : ℚ) : ℚ := mkRat (natSqrtLin a.num.toNat a.num.toNat) (natSqrtLin a.den a.den)

/-- Lexicographic code-point comparison of character lists. -/
def chLt : List Char → List Char → Bool
  | [], [] => false
  | [], _ :: _ => true
  | _ :: _, [] => false
  | a :: as, b :: bs =>
      if a.toNat < b.toNat then true
      else if b.toNat < a.toNat then false
      else chLt as bs

/-- Python string comparison is lexicographic on code points. -/
def slt (a b : String) : Bool := chLt a.data b.data

/-- Python `min` over two strings (returns the first argument on ties). -/
def smin (a b : String) : String := if slt b a then b else a

/-- Python `max` over two strings (returns the first argument on ties). -/
def smax (a b : String) : String := if slt a b then b else a

/-- Python `sorted` over a three-element list, returned as a triple. -/
def sort3 (a b c : String) : String × String × String :=
  if slt b a then
    -- b < a
    if slt c b then (c, b, a)
    else if slt c a then (b, c, a)
    else (b, a, c)
  else
    -- a ≤ b
    if slt c a then (c, a, b)
    else if slt c b then (a, c, b)
    else (a, b, c)

/-! ## Data model

The term-record classes (`AtomType`, `BondType`, `AngleType`,
`DihedralType`) and the container attributes of `ParameterSet` live in
modules of the repository outside `src/` (`parmed/topologyobjects.py`,
`parmed/parameters.py`).  Modelled from the spec: §3 "DATA MODEL" gives
their fields (name/index/mass/atomic number/optional LJ radius+epsilon for
atom types; force constant + equilibrium value for bonds and angles;
periodicity, phase, force constant and 1-4 scaling factors for dihedral
terms) and the container maps keyed by atom-type tuples. -/

/-- An atom type record.  `rmin`/`epsilon` are `none` until a nonbonded
line attaches Lennard-Jones parameters. -/
structure AtomType where
  name : String
  idx : Nat
  mass : ℚ
  atomicNumber : Nat
  rmin : Option ℚ := none
  epsilon : Option ℚ := none
  deriving DecidableEq, Repr

/-- A bond type: force constant and equilibrium length. -/
structure BondType where
  k : ℚ
  req : ℚ
  deriving DecidableEq, Repr

/-- An angle type: force constant and equilibrium angle. -/
structure AngleType where
  k : ℚ
  theteq : ℚ
  deriving DecidableEq, Repr

/-- One Fourier term of a torsion: force constant, periodicity, phase and
the 1-4 scaling factors (which default to 1.2 and 2.0). -/
structure DihedralType where
  phi_k : ℚ
  per : ℚ
  phase : ℚ
  scee : ℚ := q 6 5
  scnb : ℚ := 2
  deriving DecidableEq, Repr

/-- Modelled from the spec: the periodic-table mass lookup
(`parmed.periodic_table.Mass`, an external collaborator not under `src/`),
restricted to the elements exercised in this file.  Standard atomic
masses. -/
def MassTable : List (String × ℚ) :=
  [("H", q 100794 100000), ("C", q 120107 10000), ("N", q 140067 10000),
   ("O", q 159994 10000), ("F", q 189984032 10000000), ("P", q 30973762 1000000),
   ("S", q 32065 1000), ("Cl", q 35453 1000), ("K", q 390983 10000),
   ("Ca", q 40078 1000), ("Fe", q 55845 1000), ("Br", q 79904 1000),
   ("Mg", q 24305 1000), ("Na", q 2298977 100000), ("Zn", q 65409 1000)]

/-- Modelled from the spec: `parmed.periodic_table.AtomicNum` for the same
restricted element list. -/
def AtomicNumTable : List (String × Nat) :=
  [("H", 1), ("C", 6), ("N", 7), ("O", 8), ("F", 9), ("P", 15), ("S", 16),
   ("Cl", 17), ("K", 19), ("Ca", 20), ("Fe", 26), ("Br", 35), ("Mg", 12),
   ("Na", 11), ("Zn", 30)]

/-- Modelled from the spec: `parmed.periodic_table.element_by_mass`
(external collaborator), "inferring atomic number by nearest
periodic-table mass match" — returns the element of `MassTable` whose
standard mass is closest to `m`. -/
def element_by_mass (m : ℚ) : String :=
  (MassTable.foldl
    (fun best e => if qabs (qsub e.2 m) < qabs (qsub best.2 m) then e else best)
    ("H", q 100794 100000)).1

/-- Atomic number of the best mass match (`AtomicNum[element_by_mass(mass)]`). -/
def atomic_num_by_mass (m : ℚ) : Nat :=
  (dget AtomicNumTable (element_by_mass m)).getD 0

/-- Keys of the parameter dictionaries. -/
abbrev Key2 := String × String
abbrev Key3 := String × String × String
abbrev Key4 := String × String × String × String

/-- Reversed orientation of a four-atom key. -/
def rev4 : Key4 → Key4
  | (a, b, c, d) => (d, c, b, a)

/-- The normalized in-memory parameter database built by
`AmberParameterSet`.  Bond, angle and dihedral records are shared between
the forward- and reverse-oriented keys in the Python code, so here the
dictionaries map keys to indices into an arena list; two keys are bound to
"the identical record" exactly when they are bound to the same index. -/
structure ParamDB where
  atom_types : List (String × AtomType) := []
  bond_types : List (Key2 × Nat) := []
  bondArena : List BondType := []
  angle_types : List (Key3 × Nat) := []
  angleArena : List AngleType := []
  dihedral_types : List (Key4 × Nat) := []
  dihedArena : List (List DihedralType) := []
  improper_periodic_types : List (Key4 × DihedralType) := []
  nbfix_types : List (Key2 × (ℚ × ℚ)) := []
  deriving DecidableEq, Repr

/-! ## Per-line handlers (`AmberParameterSet._process_*_line`)

These take the fields already extracted from the fixed-format line (the
regex/tokenization step of the Python code); numeric tokens arrive as
exact rationals. -/

/-- `_process_mass_line`: an existing atom type only has its `mass` field
reassigned; the reserved pseudo-types `EP`/`LP` get atomic number 0; any
other new type gets its atomic number from the nearest periodic-table mass
match.  New types get index `len(self.atom_types)+1`. -/
def process_mass_line (db : ParamDB) (name : String) (mass : ℚ) : ParamDB :=
  match dget db.atom_types name with
  | some at0 =>
      { db with atom_types := dset db.atom_types name { at0 with mass := mass } }
  | none =>
      if name = "EP" ∨ name = "LP" then
        let t : AtomType := ⟨name, db.atom_types.length + 1, mass, 0, none, none⟩
        { db with atom_types := dset db.atom_types name t }
      else
        let t : AtomType :=
          ⟨name, db.atom_types.length + 1, mass, atomic_num_by_mass mass, none, none⟩
        { db with atom_types := dset db.atom_types name t }

/-- `_process_bond_line`: creates one fresh `BondType` record and binds
both the forward and the reverse key to it. -/
def process_bond_line (db : ParamDB) (a1 a2 : String) (k req : ℚ) : ParamDB :=
  let slot := db.bondArena.length
  { db with
      bondArena := db.bondArena ++ [⟨k, req⟩],
      bond_types := dset (dset db.bond_types (a1, a2) slot) (a2, a1) slot }

/-- `_process_angle_line`: creates one fresh `AngleType` record and binds
both the forward and the reverse key to it. -/
def process_angle_line (db : ParamDB) (a1 a2 a3 : String) (k theteq : ℚ) : ParamDB :=
  let slot := db.angleArena.length
  { db with
      angleArena := db.angleArena ++ [⟨k, theteq⟩],
      angle_types := dset (dset db.angle_types (a1, a2, a3) slot) (a3, a2, a1) slot }

/-- `_process_improper_line`: atom 3 is kept fixed as the central atom and
the flanking atoms `{1,2,4}` are sorted lexically (`a1, a2, a4 =
sorted([a1, a2, a4])`); the record is stored under that canonical key
only.  No wildcard special-casing happens here. -/
def process_improper_line (db : ParamDB) (a1 a2 a3 a4 : String)
    (k phi per : ℚ) : ParamDB :=
  let s := sort3 a1 a2 a4
  let key : Key4 := (s.1, s.2.1, a3, s.2.2)
  let t : DihedralType := ⟨k, per, phi, q 6 5, 2⟩
  { db with improper_periodic_types := dset db.improper_periodic_types key t }

/-- `_process_nonbond_line`: attaches LJ parameters to an existing atom
type (`set_lj_params(eps, rmin)`; modelled from the spec: the setter, in
`parmed/topologyobjects.py` outside `src/`, records the radius and
epsilon); an unknown type is an error. -/
def process_nonbond_line (db : ParamDB) (atyp : String) (rmin eps : ℚ) :
    Except String ParamDB :=
  match dget db.atom_types atyp with
  | none => throw ("Atom type " ++ atyp ++ " not present in the database.")
  | some t =>
      let t' := { t with epsilon := some eps, rmin := some rmin }
      pure { db with atom_types := dset db.atom_types atyp t' }

/-- The equivalencing table of a parm.dat file: canonical type ↦ list of
equivalenced types.  Python uses a `defaultdict(list)`, so a missing key
reads as the empty list. -/
abbrev EqTable := List (String × List String)

/-- `defaultdict(list)` lookup. -/
def eqget (eq : EqTable) (a : String) : List String := (dget eq a).getD []

/-- The lexically sorted pair `(min(a1, a2), max(a1, a2))`. -/
def nbkey (a b : String) : Key2 := (smin a b, smax a b)

/-- `_process_nbfix_line`: stores `(sqrt(eps1*eps2), rmin1+rmin2)` under
the sorted pair, and — when an equivalencing table is given — also under
every pair formed with the types equivalenced to `a1`, to `a2`, and the
cross product of both equivalence sets.  `math.sqrt` is abstracted as
`msqrt`. -/
def process_nbfix_line (msqrt : ℚ → ℚ) (db : ParamDB) (a1 a2 : String)
    (rmin1 eps1 rmin2 eps2 : ℚ) (equivalents : Option EqTable) : ParamDB :=
  let v : ℚ × ℚ := (msqrt (qmul eps1 eps2), qadd rmin1 rmin2)
  let nb0 := dset db.nbfix_types (nbkey a1 a2) v
  match equivalents with
  | none => { db with nbfix_types := nb0 }
  | some eqt =>
      let nb1 := (eqget eqt a1).foldl (fun nb oa1 => dset nb (nbkey oa1 a2) v) nb0
      let nb2 := (eqget eqt a2).foldl (fun nb oa2 => dset nb (nbkey a1 oa2) v) nb1
      let nb3 := (eqget eqt a1).foldl (fun nb oa1 =>
          (eqget eqt a2).foldl (fun nb oa2 => dset nb (nbkey oa1 oa2) v) nb) nb2
      { db with nbfix_types := nb3 }

/-- A dihedral-section line, after regex matching: either the full form
with atom types, divisor, k, phase and periodicity, or the continuation
form with the four numbers only.  `SCEE=`/`SCNB=` annotations may occur on
either form (they are found by `findall` over the whole line). -/
inductive DihLine where
  | full (a1 a2 a3 a4 : String) (div k phi per : ℚ) (scee scnb : Option ℚ)
  | cont (div k phi per : ℚ) (scee scnb : Option ℚ)
  deriving DecidableEq, Repr

/-- `_process_dihedral_line`.  `finished` is the `finished_diheds`
`defaultdict(lambda: True)` threaded through a dihedral section;
`last_key` is the key returned by the previous call (set when that line's
periodicity was negative).  Returns the updated database, the updated
`finished` map, and the key to pass to the next call (`some key` exactly
when the periodicity was negative).  A continuation line is only legal
when `last_key` is set, its key is present in `finished`, and that key is
not yet finished (the code's `assert`/`AssertionError`); appending to a
key absent from `dihedral_types` would be a Python `KeyError`.  (The
non-fatal `ParameterWarning` for a full line whose key differs from
`last_key` is not modelled.) -/
def process_dihedral_line (line : DihLine) (db : ParamDB)
    (finished : List (Key4 × Bool)) (last_key : Option Key4) :
    Except String (ParamDB × List (Key4 × Bool) × Option Key4) := do
  let info : Key4 × ℚ × ℚ × ℚ × ℚ × Option ℚ × Option ℚ ←
    match line, last_key with
    | .cont _ _ _ _ _ _, none =>
        throw "Could not understand DIHEDRAL line"
    | .cont div k phi per scee scnb, some lk =>
        match dget finished lk with
        | none => throw "AssertionError: key not in finished_diheds"
        | some true => throw "Cannot have an implied torsion that has already finished!"
        | some false => pure (lk, div, k, phi, per, scee, scnb)
    | .full a1 a2 a3 a4 div k phi per scee scnb, _ =>
        pure ((a1, a2, a3, a4), div, k, phi, per, scee, scnb)
  let (key, div, k, phi, per, scee, scnb) := info
  let rkey := rev4 key
  let typ : DihedralType := ⟨qdiv k div, qabs per, phi, scee.getD (q 6 5), scnb.getD 2⟩
  if (dget finished key).getD true then
    -- the key's previous definition is complete: a fresh single-term
    -- sequence replaces the entry for the key and its reverse
    let slot := db.dihedArena.length
    let db' := { db with
        dihedArena := db.dihedArena ++ [[typ]],
        dihedral_types := dset (dset db.dihedral_types key slot) rkey slot }
    let fin' := dset (dset finished key (decide (0 ≤ per))) rkey (decide (0 ≤ per))
    pure (db', fin', if per < 0 then some key else none)
  else
    -- continuation: append to the existing shared term sequence
    match dget db.dihedral_types key with
    | none => throw "KeyError"
    | some slot =>
        match db.dihedArena.get? slot with
        | none => throw "KeyError"
        | some lst =>
            let db' := { db with dihedArena := db.dihedArena.set slot (lst ++ [typ]) }
            let fin' := dset (dset finished key (decide (0 ≤ per))) rkey (decide (0 ≤ per))
            pure (db', fin', if per < 0 then some key else none)

/-! ## Serializer (`AmberParameterSet.write`)

The output file is modelled one line at a time at the token level: an
`FrcLine` carries the values that the fixed-width fields of the written
line denote.  The numeric effect of a `%w.df`-style format is captured by
`roundTo d`; the claims about round-tripping are stated up to this
serialization rounding. -/

/-- The rational denoted by the decimal digits that `f'{q:W.DPf}'` prints:
`q` rounded to `dp` decimal places.  (Python rounds the nearest binary
double and breaks exact ties to even; this model rounds the exact rational,
ties up — the claims are stated only up to this serialization precision.) -/
def roundTo (dp : Nat) (x : ℚ) : ℚ :=
  mkRat ⌊qadd (qmul x (q (10 ^ dp) 1)) (q 1 2)⌋ (10 ^ dp)

/-- One line of a written (or read) frcmod-layout file, at token level.
For `ljedit` the four numeric fields are positional (`f1 f2 f3 f4`): the
file format defines them as `rmin1 eps1 rmin2 eps2` and the parser reads
them in that order. -/
inductive FrcLine where
  | title (s : String)
  | blank
  | header (s : String)
  | mass (name : String) (m : ℚ)
  | bond (a1 a2 : String) (k req : ℚ)
  | angle (a1 a2 a3 : String) (k theteq : ℚ)
  | dihe (a1 a2 a3 a4 : String) (div k phase per : ℚ) (scee scnb : Option ℚ)
  | dcont (div k phase per : ℚ) (scee scnb : Option ℚ)
  | improper (a1 a2 a3 a4 : String) (k phase per : ℚ)
  | nonb (name : String) (rmin eps : ℚ)
  | ljedit (a1 a2 : String) (f1 f2 f3 f4 : ℚ)
  deriving DecidableEq, Repr

/-- The `done`-set bookkeeping of `write`: iterate a parameter dict and
keep only the first entry for each record identity (`id(typ)`), skipping
keys whose shared record was already written. -/
def dedupById {α : Type} : List (α × Nat) → List Nat → List (α × Nat)
  | [], _ => []
  | (key, slot) :: rest, done =>
      if slot ∈ done then dedupById rest done
      else (key, slot) :: dedupById rest (slot :: done)

/-- MASS section: `f'{atom:<6}{typ.mass:6.3f}'`. -/
def write_mass_lines (db : ParamDB) : List FrcLine :=
  db.atom_types.map (fun e => .mass e.1 (roundTo 3 e.2.mass))

/-- BOND section: one line per distinct shared record
(`if id(typ) in done: continue`), `{k:8.3f}` and `{req:6.3f}`. -/
def write_bond_lines (db : ParamDB) : List FrcLine :=
  (dedupById db.bond_types []).map (fun e =>
    let t := (db.bondArena.get? e.2).getD ⟨0, 0⟩
    .bond e.1.1 e.1.2 (roundTo 3 t.k) (roundTo 3 t.req))

/-- ANGLE section, same structure as bonds. -/
def write_angle_lines (db : ParamDB) : List FrcLine :=
  (dedupById db.angle_types []).map (fun e =>
    let t := (db.angleArena.get? e.2).getD ⟨0, 0⟩
    .angle e.1.1 e.1.2.1 e.1.2.2 (roundTo 3 t.k) (roundTo 3 t.theteq))

/-- `write_dtype`: `{a1:<2}-…-{a4:<2} {1:4d} {phi_k:14.8f} {phase:8.3f}
{cont * per:5.1f}    SCEE={scee} SCNB={scnb}` (the scaling factors are
printed with `str`, i.e. at full value). -/
def write_dtype (a1 a2 a3 a4 : String) (cont : ℚ) (t : DihedralType) : FrcLine :=
  .dihe a1 a2 a3 a4 1 (roundTo 8 t.phi_k) (roundTo 3 t.phase)
    (roundTo 1 (qmul cont t.per)) (some t.scee) (some t.scnb)

/-- DIHE section for one deduplicated entry: a single term is written with
positive periodicity; a multi-term sequence writes every term but the last
with negated periodicity (`cont = -1`).  An empty term sequence would be a
Python `IndexError` (`typ[-1]`). -/
def write_dihe_entry (key : Key4) (ts : List DihedralType) :
    Except String (List FrcLine) :=
  match key, ts with
  | _, [] => throw "IndexError: empty DihedralTypeList"
  | (a1, a2, a3, a4), [t] => pure [write_dtype a1 a2 a3 a4 1 t]
  | (a1, a2, a3, a4), ts =>
      pure (ts.dropLast.map (write_dtype a1 a2 a3 a4 (q (-1) 1)) ++
        [write_dtype a1 a2 a3 a4 1 (ts.getLastD ⟨0, 0, 0, q 6 5, 2⟩)])

/-- DIHE section: deduplicate by record identity, then write each term
sequence. -/
def write_dihe_lines (db : ParamDB) : Except String (List FrcLine) :=
  (dedupById db.dihedral_types []).foldlM
    (fun acc e => do
      let ts := (db.dihedArena.get? e.2).getD []
      let ls ← write_dihe_entry e.1 ts
      pure (acc ++ ls))
    []

/-- The wildcard renormalization `write` applies to an improper key before
writing it: a wildcard in position 2 requires one in position 4 (else the
`assert` fails), and a lone wildcard in position 4 moves to position 1
with the two remaining flanking atoms re-sorted. -/
def improper_written_key (key : Key4) : Except String Key4 :=
  let (a1, a2, a3, a4) := key
  if a2 = "X" then
    if a4 = "X" then pure ("X", "X", a3, a1)
    else throw "Malformed generic improper!"
  else if a4 = "X" then
    let p := if slt a2 a1 then (a2, a1) else (a1, a2)
    pure ("X", p.1, a3, p.2)
  else
    let s := sort3 a1 a2 a4
    pure (s.1, s.2.1, a3, s.2.2)

/-- IMPROPER section: renormalize each key, write each distinct written
key once, and reject two different records landing on the same written key
(`Multiple impropers with the same atom set not allowed`).  Record
equality is by value (modelled from the spec: `DihedralType.__eq__` lives
outside `src/`; §7 lists "multiple conflicting impropers for one canonical
key" as the error condition). -/
def write_improper_lines_go (entries : List (Key4 × DihedralType))
    (written : List (Key4 × DihedralType)) : Except String (List FrcLine) :=
  match entries with
  | [] => pure []
  | (key, typ) :: rest => do
      let wkey ← improper_written_key key
      match dget written wkey with
      | some t0 =>
          if t0 ≠ typ then throw "Multiple impropers with the same atom set not allowed"
          else write_improper_lines_go rest written
      | none => do
          let ls ← write_improper_lines_go rest (dset written wkey typ)
          pure (.improper wkey.1 wkey.2.1 wkey.2.2.1 wkey.2.2.2
            (roundTo 8 typ.phi_k) (roundTo 3 typ.phase) (roundTo 1 typ.per) :: ls)

/-- NONB section: `f'{atom:<2}  {typ.rmin:12.8f} {typ.epsilon:12.8f}'`;
formatting `None` (an atom type without LJ parameters) is a Python
`TypeError`. -/
def write_nonb_lines (db : ParamDB) : Except String (List FrcLine) :=
  db.atom_types.foldlM
    (fun acc e =>
      match e.2.rmin, e.2.epsilon with
      | some r, some ep => pure (acc ++ [FrcLine.nonb e.1 (roundTo 8 r) (roundTo 8 ep)])
      | _, _ => throw "TypeError: unsupported format string passed to NoneType")
    []

/-- LJEDIT section: for each stored `(eps, rmin)` the code writes the four
numeric fields as `{eps} {rmin/2} {eps} {rmin/2}` (in that order). -/
def write_ljedit_lines (db : ParamDB) : List FrcLine :=
  db.nbfix_types.map (fun e =>
    .ljedit e.1.1 e.1.2 (roundTo 8 e.2.1) (roundTo 8 (qdiv e.2.2 2))
      (roundTo 8 e.2.1) (roundTo 8 (qdiv e.2.2 2)))

/-- `AmberParameterSet.write`: validates `style` (only `'frcmod'` and
`'parm'` are accepted) and then writes title, MASS, BOND, ANGLE, DIHE,
IMPROPER and NONB sections, plus LJEDIT when any NBFIX entries exist.
After the validation the Python implementation never consults `style`
again. -/
def write_frcmod (db : ParamDB) (style : String) (title : String) :
    Except String (List FrcLine) := do
  if style ≠ "frcmod" ∧ style ≠ "parm" then
    throw ("style must be either frcmod or parm, not " ++ style)
  let diheLines ← write_dihe_lines db
  let impLines ← write_improper_lines_go db.improper_periodic_types []
  let nonbLines ← write_nonb_lines db
  pure ([FrcLine.title title, .header "MASS"] ++ write_mass_lines db ++
    [.blank, .header "BOND"] ++ write_bond_lines db ++
    [.blank, .header "ANGLE"] ++ write_angle_lines db ++
    [.blank, .header "DIHE"] ++ diheLines ++
    [.blank, .header "IMPROPER"] ++ impLines ++
    [.blank, .header "NONB"] ++ nonbLines ++
    [.blank] ++
    (if db.nbfix_types = [] then [] else FrcLine.header "LJEDIT" :: write_ljedit_lines db))

/-! ## frcmod parsing at line level (`_parse_frcmod` driving the
`_process_*` handlers) -/

/-- Is this character one of Python's `str.split()` / `strip()`
whitespace characters (the ASCII ones)? -/
def isSpaceCh (c : Char) : Bool :=
  c = ' ' ∨ c = '\t' ∨ c = '\n' ∨ c = '\r' ∨ c = '\x0b' ∨ c = '\x0c'

/-- `pre` is a prefix of `s` (Python `str.startswith`). -/
def startsWithCh : List Char → List Char → Bool
  | [], _ => true
  | _, [] => false
  | p :: ps, c :: cs => p = c && startsWithCh ps cs

/-- The section a nonblank frcmod line selects, tested with `startswith`
in the order of the Python `elif` chain. -/
def frcmod_section_of (s : String) : Option String :=
  if startsWithCh "MASS".data s.data then some "MASS"
  else if startsWithCh "BOND".data s.data then some "BOND"
  else if startsWithCh "ANGL".data s.data then some "ANGLE"
  else if startsWithCh "DIHE".data s.data then some "DIHEDRAL"
  else if startsWithCh "IMPR".data s.data then some "IMPROPER"
  else if startsWithCh "NONB".data s.data then some "NONBOND"
  else if startsWithCh "LJEDIT".data s.data then some "NBFIX"
  else none

/-- Parser state inside an frcmod file: the database, the current section,
and the dihedral continuation state (`finished_diheds`, `key`). -/
structure FrcState where
  db : ParamDB := {}
  sec : Option String := none
  finished : List (Key4 × Bool) := []
  key : Option Key4 := none
  deriving DecidableEq, Repr

/-- Dispatch of one frcmod line.  Header lines switch sections; content
lines go to the section's handler (a token-level `FrcLine` of the wrong
shape for the current section would have failed that handler's regex, a
`ParameterError`); lines before any section header are skipped (the Python
dispatch has no branch for `section is None`). -/
def parse_frcmod_line (msqrt : ℚ → ℚ) (st : FrcState) (l : FrcLine) :
    Except String FrcState :=
  match l with
  | .blank => pure st
  | .title _ => pure st
  | .header s =>
      match frcmod_section_of s with
      | some sec => pure { st with sec := some sec }
      | none => pure st
  | .mass n m =>
      if st.sec = some "MASS" then pure { st with db := process_mass_line st.db n m }
      else if st.sec = none then pure st
      else throw "ParameterError: line does not match section"
  | .bond a1 a2 k req =>
      if st.sec = some "BOND" then pure { st with db := process_bond_line st.db a1 a2 k req }
      else if st.sec = none then pure st
      else throw "ParameterError: line does not match section"
  | .angle a1 a2 a3 k teq =>
      if st.sec = some "ANGLE" then
        pure { st with db := process_angle_line st.db a1 a2 a3 k teq }
      else if st.sec = none then pure st
      else throw "ParameterError: line does not match section"
  | .dihe a1 a2 a3 a4 div k phase per scee scnb =>
      if st.sec = some "DIHEDRAL" then do
        let (db', fin', key') ←
          process_dihedral_line (.full a1 a2 a3 a4 div k phase per scee scnb)
            st.db st.finished st.key
        pure { st with db := db', finished := fin', key := key' }
      else if st.sec = none then pure st
      else throw "ParameterError: line does not match section"
  | .dcont div k phase per scee scnb =>
      if st.sec = some "DIHEDRAL" then do
        let (db', fin', key') ←
          process_dihedral_line (.cont div k phase per scee scnb)
            st.db st.finished st.key
        pure { st with db := db', finished := fin', key := key' }
      else if st.sec = none then pure st
      else throw "ParameterError: line does not match section"
  | .improper a1 a2 a3 a4 k phase per =>
      if st.sec = some "IMPROPER" then
        pure { st with db := process_improper_line st.db a1 a2 a3 a4 k phase per }
      else if st.sec = none then pure st
      else throw "ParameterError: line does not match section"
  | .nonb n rmin eps =>
      if st.sec = some "NONBOND" then do
        let db' ← process_nonbond_line st.db n rmin eps
        pure { st with db := db' }
      else if st.sec = none then pure st
      else throw "ParameterError: line does not match section"
  | .ljedit a1 a2 f1 f2 f3 f4 =>
      if st.sec = some "NBFIX" then
        pure { st with db := process_nbfix_line msqrt st.db a1 a2 f1 f2 f3 f4 none }
      else if st.sec = none then pure st
      else throw "ParameterError: line does not match section"

/-- `_parse_frcmod` over token-level lines. -/
def parse_frcmod_lines (msqrt : ℚ → ℚ) (lines : List FrcLine) (st : FrcState) :
    Except String FrcState :=
  match lines with
  | [] => pure st
  | l :: rest => do
      let st' ← parse_frcmod_line msqrt st l
      parse_frcmod_lines msqrt rest st'

/-- `load_parameters` on a written file: the first line is consumed as the
title, the rest is recognized as frcmod layout (a header follows) and
handed to `_parse_frcmod`. -/
def parse_written (msqrt : ℚ → ℚ) (lines : List FrcLine) : Except String ParamDB := do
  let body := match lines with
    | FrcLine.title _ :: rest => rest
    | other => other
  let st ← parse_frcmod_lines msqrt body {}
  pure st.db

/-! ## Leaprc directive processing (`from_leaprc`), restricted to the
`loadamberparams` single-load kludge (`__is_parm_loaded`). -/

/-- The single-load bookkeeping of `AmberParameterSet.__init__` plus an
observable trace: `loaded` records, in order, the files actually handed to
`load_parameters`; `warns` records the `Skipping …: already loaded`
warnings. -/
structure LeaprcState where
  parm10_loaded : Bool := false
  parm99_loaded : Bool := false
  parm15_loaded : Bool := false
  loaded : List String := []
  warns : List String := []
  deriving DecidableEq, Repr

/-- `parm_loaded_key`: a file beginning with `parm15` counts as the
`parm15` identifier; the key is then looked up among the three tracked
identifiers (`parm10.dat`, `parm99.dat`, `parm15`), any other file is
untracked. -/
def parm_loaded_key (fname : String) : Option String :=
  let key := if startsWithCh "parm15".data fname.data then "parm15" else fname
  if key = "parm10.dat" ∨ key = "parm99.dat" ∨ key = "parm15" then some key
  else none

/-- Value of the tracked flag for a designated key. -/
def parm_flag (st : LeaprcState) (k : String) : Bool :=
  if k = "parm10.dat" then st.parm10_loaded
  else if k = "parm99.dat" then st.parm99_loaded
  else st.parm15_loaded

/-- Set the tracked flag of a designated key. -/
def set_parm_flag (st : LeaprcState) (k : String) : LeaprcState :=
  if k = "parm10.dat" then { st with parm10_loaded := true }
  else if k = "parm99.dat" then { st with parm99_loaded := true }
  else { st with parm15_loaded := true }

/-- One `loadamberparams <fname>` directive: a tracked identifier whose
flag is already set is skipped with a warning; otherwise the flag is set
(for tracked identifiers) and the file is loaded. -/
def process_loadamberparams (st : LeaprcState) (fname : String) : LeaprcState :=
  match parm_loaded_key fname with
  | some k =>
      if parm_flag st k then
        { st with warns := st.warns ++ ["Skipping " ++ fname ++ ": already loaded"] }
      else
        let st' := set_parm_flag st k
        { st' with loaded := st'.loaded ++ [fname] }
  | none => { st with loaded := st.loaded ++ [fname] }

/-- The stream of `loadamberparams` directives of one leaprc source. -/
def run_loadamberparams (fnames : List String) : LeaprcState :=
  fnames.foldl process_loadamberparams {}

/-! ## LJ 12-6-4 augmentation (`parmed/tools/add1264.py`, `params1264`) -/

/-- `WATER_POL = 1.444`, the reference polarizability of water. -/
def WATER_POL : ℚ := q 1444 1000

/-- Python list read `l[i]` including the negative-index wrap;
out-of-range is an `IndexError`. -/
def pyGet {α : Type} (l : List α) (i : Int) : Except String α :=
  let j : Int := if i < 0 then i + l.length else i
  match j with
  | .ofNat n =>
      match l.get? n with
      | some x => pure x
      | none => throw "IndexError: list index out of range"
  | .negSucc _ => throw "IndexError: list index out of range"

/-- Python list write `l[i] = v` including the negative-index wrap. -/
def pySet {α : Type} (l : List α) (i : Int) (v : α) : Except String (List α) :=
  let j : Int := if i < 0 then i + l.length else i
  match j with
  | .ofNat n => if n < l.length then pure (l.set n v) else throw "IndexError"
  | .negSucc _ => throw "IndexError"

/-- Step 1 of `params1264`: the `ATOM_TYPE_INDEX ↦ list of
AMBER_ATOM_TYPE` dictionary, built from the per-atom zip (first occurrence
of each name per index, in order). -/
def build_typdict_zip (pairs : List (String × Nat)) : List (Nat × List String) :=
  pairs.foldl
    (fun d p =>
      match dget d p.2 with
      | none => dset d p.2 [p.1]
      | some ts => if p.1 ∈ ts then d else dset d p.2 (ts ++ [p.1]))
    []

/-- Step 1, second loop: any type index from 1 to `ntypes` that no atom
uses gets the empty list. -/
def build_typdict (typs : List String) (typinds : List Nat) (ntypes : Nat) :
    List (Nat × List String) :=
  (List.range ntypes).foldl
    (fun d i => if (i + 1) ∈ typinds then d else dset d (i + 1) [])
    (build_typdict_zip (typs.zip typinds))

/-- The polarizability of a combined nonbonded type: the first label's
value, with every further label required to agree exactly (else
`LJ12_6_4Error`); a missing label is also an error. -/
def lookup_pol (pollist : List (String × ℚ)) : List String → Except String ℚ
  | [] => throw "LJ12_6_4Error: empty type list"
  | t0 :: rest => do
      let pol ← match dget pollist t0 with
        | some p => pure p
        | none => throw ("Could not find parameters for ATOM_TYPE " ++ t0)
      let _ ← rest.foldlM
        (fun _ t =>
          match dget pollist t with
          | some p =>
              if p ≠ pol then
                throw "Polarizability parameter is not the same"
              else pure ()
          | none => throw ("Could not find parameters for ATOM_TYPE " ++ t))
        ()
      pure pol

/-- The flat pair index for metal type `i = mettypind - 1` and partner
`jj = j - 1`: `NONBONDED_PARM_INDEX[ntypes*min+max] - 1` (with the
lower-triangle swap written out as in the code). -/
def pair_idx (ntypes : Nat) (nbIdx : List Int) (i jj : Int) : Except String Int := do
  let raw ← if jj < i then pyGet nbIdx (ntypes * jj + i) else pyGet nbIdx (ntypes * i + jj)
  pure (raw - 1)

/-- The inner `for j in range(1, ntypes+1)` body for one metal ion type:
skip empty type lists; check polarizabilities; then either assign the
tabulated C4 (water oxygen, `attypjs == ['OW']`) or add the combined
`c4 / WATER_POL * pol * tunfactor` contribution. -/
def loop_j (ntypes : Nat) (nbIdx : List Int) (typdict : List (Nat × List String))
    (pollist : List (String × ℚ)) (tunfactor : ℚ) (i : Int) (c4 : ℚ)
    (result : List ℚ) : List Nat → Except String (List ℚ)
  | [] => pure result
  | j :: js => do
      let attypjs ← match dget typdict j with
        | some ts => pure ts
        | none => throw "KeyError: typdict"
      if attypjs.length ≥ 1 then do
        let pol ← lookup_pol pollist attypjs
        let jj : Int := (j : Int) - 1
        let idx ← pair_idx ntypes nbIdx i jj
        if attypjs = ["OW"] then do
          let result' ← pySet result idx c4
          loop_j ntypes nbIdx typdict pollist tunfactor i c4 result' js
        else do
          let cur ← pyGet result idx
          let result' ← pySet result idx (qadd cur (qmul (qmul (qdiv c4 WATER_POL) pol) tunfactor))
          loop_j ntypes nbIdx typdict pollist tunfactor i c4 result' js
      else
        loop_j ntypes nbIdx typdict pollist tunfactor i c4 result js

/-- The outer loop over the sorted metal ion type indices
(`for mettypind in mettypinds`), with the tabulated C4 looked up per ion
type. -/
def loop_met (ntypes : Nat) (nbIdx : List Int) (typdict : List (Nat × List String))
    (pollist : List (String × ℚ)) (tunfactor : ℚ) (c4OfInd : List (Nat × ℚ))
    (result : List ℚ) : List Nat → Except String (List ℚ)
  | [] => pure result
  | m :: ms => do
      let c4 ← match dget c4OfInd m with
        | some c => pure c
        | none => throw "KeyError: c4list"
      let result' ← loop_j ntypes nbIdx typdict pollist tunfactor ((m : Int) - 1) c4
        result ((List.range ntypes).map (fun t => t + 1))
      loop_met ntypes nbIdx typdict pollist tunfactor c4OfInd result' ms

/-- `params1264`, from the typdict construction on: `mettypinds` is the
sorted list of selected metal ion type indices and `c4OfInd` the tabulated
C4 coefficient for each (`c4list[Element+charge]`); the result starts as
`[0.0 for _ in LENNARD_JONES_ACOEF]`. -/
def params1264_core (ntypes : Nat) (nbIdx : List Int) (typs : List String)
    (typinds : List Nat) (pollist : List (String × ℚ)) (mettypinds : List Nat)
    (c4OfInd : List (Nat × ℚ)) (tunfactor : ℚ) (acoefLen : Nat) :
    Except String (List ℚ) :=
  loop_met ntypes nbIdx (build_typdict typs typinds ntypes) pollist tunfactor
    c4OfInd (List.replicate acoefLen 0) mettypinds

/-- All (metal ion type index, partner type index) pairs the double loop
of `params1264` visits, in processing order. -/
def metPairs (mettypinds : List Nat) (ntypes : Nat) : List (Nat × Nat) :=
  mettypinds.flatMap (fun m => (List.range ntypes).map (fun t => (m, t + 1)))

/-- Reference semantics of the C4 accumulation at one flat pair index `n`:
fold over the visited pairs, skipping pairs whose combined type has no
labels, assigning the tabulated C4 for a water-oxygen partner
(`attypjs == ['OW']`) and adding `c4 / WATER_POL * pol * tunfactor`
otherwise. -/
def c4ValueAt (tdf : Nat → List String) (idxf : Nat → Nat → Nat) (c4f : Nat → ℚ)
    (polf : Nat → ℚ) (tun : ℚ) (n : Nat) : List (Nat × Nat) → ℚ → ℚ
  | [], cur => cur
  | (m, j) :: ps, cur =>
      if tdf j = [] then c4ValueAt tdf idxf c4f polf tun n ps cur
      else if idxf m j = n then
        if tdf j = ["OW"] then c4ValueAt tdf idxf c4f polf tun n ps (c4f m)
        else c4ValueAt tdf idxf c4f polf tun n ps
          (qadd cur (qmul (qmul (qdiv (c4f m) WATER_POL) (polf j)) tun))
      else c4ValueAt tdf idxf c4f polf tun n ps cur

/-! ## Format sniffer (`AmberParameterSet.id_format`)

The sniffer is modelled over the file's lines (newline-stripped) at
character level.  `float()` is modelled for the decimal forms
`[ws][±](d*.d*|d+)[(e|E)[±]d+][ws]` (exotic accepted spellings such as
`nan`, `inf` or digit-group underscores are outside the model). -/

/-- Leading-whitespace strip. -/
def trimLeftCh (l : List Char) : List Char := l.dropWhile (fun c => isSpaceCh c)

/-- Python `str.rstrip()`. -/
def trimRightCh (l : List Char) : List Char :=
  ((l.reverse).dropWhile (fun c => isSpaceCh c)).reverse

/-- Python `str.strip()`. -/
def trimCh (l : List Char) : List Char := trimRightCh (trimLeftCh l)

/-- Accumulate a maximal run of decimal digits: value so far, digit count,
rest. -/
def takeDigits : ℕ → ℕ → List Char → ℕ × ℕ × List Char
  | acc, cnt, [] => (acc, cnt, [])
  | acc, cnt, c :: cs =>
      if c.isDigit then takeDigits (acc * 10 + (c.toNat - 48)) (cnt + 1) cs
      else (acc, cnt, c :: cs)

/-- The optional exponent suffix and end-of-token check of `float()`:
`mant / 10^fdigits` scaled by the exponent, `none` on trailing junk. -/
def parseExpSuffix (neg : Bool) (mant : ℕ) (fdigits : ℕ) : List Char → Option ℚ
  | [] => some (q (if neg then -(mant : Int) else mant) (10 ^ fdigits))
  | c :: r =>
      if c = 'e' ∨ c = 'E' then
        let (esgn, r') := match r with
          | '+' :: r2 => (true, r2)
          | '-' :: r2 => (false, r2)
          | r2 => (true, r2)
        let (ev, ec, r2) := takeDigits 0 0 r'
        if ec = 0 ∨ r2 ≠ [] then none
        else if esgn then
          some (q ((if neg then -(mant : Int) else mant) * 10 ^ ev) (10 ^ fdigits))
        else some (q (if neg then -(mant : Int) else mant) (10 ^ fdigits * 10 ^ ev))
      else none

/-- Python `float()` on a token, for the decimal forms above. -/
def pfloatCh (l : List Char) : Option ℚ :=
  let l1 := trimCh l
  let (neg, l2) : Bool × List Char := match l1 with
    | '+' :: r => (false, r)
    | '-' :: r => (true, r)
    | r => (false, r)
  let (ip, ic, l3) := takeDigits 0 0 l2
  match l3 with
  | '.' :: r =>
      let (fp, fc, r2) := takeDigits 0 0 r
      if ic = 0 ∧ fc = 0 then none
      else parseExpSuffix neg (ip * 10 ^ fc + fp) fc r2
  | _ => if ic = 0 then none else parseExpSuffix neg ip 0 l3

/-- Python `float()` on a string token. -/
def pfloat (s : String) : Option ℚ := pfloatCh s.data

/-- Python `str.split()` (split on whitespace runs, no empty tokens). -/
def splitWsAux : List Char → List Char → List (List Char)
  | [], acc => if acc = [] then [] else [acc.reverse]
  | c :: cs, acc =>
      if isSpaceCh c then
        if acc = [] then splitWsAux cs [] else acc.reverse :: splitWsAux cs []
      else splitWsAux cs (c :: acc)

/-- Python `str.split()` over a line's characters. -/
def splitWs (l : List Char) : List (List Char) := splitWsAux l []

/-- The frcmod section headers recognized by the sniffer and the frcmod
parser dispatch. -/
def headerSet : List String :=
  ["MASS", "BOND", "ANGLE", "ANGL", "DIHE", "DIHED", "DIHEDRAL",
   "IMPR", "IMPROP", "IMPROPER", "NONB", "NONBON", "NONBOND", "NONBONDED"]

/-- The "UGLY" best-guess element-mass validation of `id_format`, entered
when no parseable polarizability column is present: guess an element from
the 1–2 letter type code and require the declared mass to match it within
1 amu (with the special case accepting anything starting with `C` whose
mass matches carbon).  Returns whether the line survives the check.
A two-alpha-letter code that is not itself an element symbol is always
rejected (both branches of the code's final `elif` return `False`). -/
def mass_check (w0 : List Char) (m : ℚ) : Bool :=
  match w0 with
  | [c0, c1] =>
      if c0.isAlpha then
        if c1.isAlpha then
          let key := String.mk [c0.toUpper, c1.toLower]
          match dget MassTable key with
          | some mk =>
              if 1 < qabs (qsub mk m) then
                if c0.toUpper = 'C' then
                  if 1 < qabs (qsub ((dget MassTable "C").getD 0) m) then false else true
                else false
              else true
          | none => false
        else
          match dget MassTable (String.mk [c0.toUpper]) with
          | some mk => if 1 < qabs (qsub mk m) then false else true
          | none => false
      else
        match dget MassTable (String.mk [c1.toUpper]) with
        | some mk => if 1 < qabs (qsub mk m) then false else true
        | none => false
  | [c0] =>
      match dget MassTable (String.mk [c0.toUpper]) with
      | some mk => if 1 < qabs (qsub mk m) then false else true
      | none => false
  | _ => false

/-- The trailing-comment heuristic: a fourth token that parses as a float
rejects the line; a non-numeric fourth token (or none at all) accepts. -/
def words3_check (wrest : List (List Char)) : Bool :=
  match wrest with
  | _ :: w3 :: _ => (pfloatCh w3).isNone
  | _ => true

/-- First non-blank line of the remaining stream, if any (the sniffer's
blank-skipping `while` loop). -/
def firstNonBlank : List String → Option String
  | [] => none
  | l :: rest => if trimCh l.data = [] then firstNonBlank rest else some l

/-- `AmberParameterSet.id_format` over the file's lines: the first line is
discarded; a blank (or absent) second line demands a section header first
(frcmod); a second line that is itself a header is frcmod; otherwise the
second line must look like a parm.dat atom-type mass record. -/
def id_format : List String → Bool
  | [] => false
  | [_] => false
  | _ :: l2 :: rest2 =>
      if trimCh l2.data = [] then
        match firstNonBlank rest2 with
        | none => false
        | some l => String.mk (trimRightCh l.data) ∈ headerSet
      else if String.mk (trimRightCh l2.data) ∈ headerSet then true
      else
        match splitWs l2.data with
        | [] => false
        | [_] => false
        | w0 :: w1 :: wrest =>
          if w0.length > 2 then false
          else if (pfloatCh w0).isSome then false
          else
            match pfloatCh w1 with
            | none => false
            | some m =>
              let polPresent := match wrest with
                | w2 :: _ => (pfloatCh w2).isSome
                | [] => false
              if polPresent then words3_check wrest
              else if mass_check w0 m then words3_check wrest
              else false

/-! ## Concrete instances used by the theorems -/

/-- A small complete database: two atom types with masses and LJ
parameters attached, and one NBFIX override with combined epsilon 3 and
combined rmin 4. -/
def exampleDB : ParamDB :=
  { atom_types := [("A", ⟨"A", 1, q 1201 100, 6, some (q 3 2), some (q 1 5)⟩),
                   ("B", ⟨"B", 2, q 177 5, 17, some 2, some (q 3 10)⟩)],
    nbfix_types := [(("A", "B"), (3, 4))] }

/-- A dihedral section with one three-term torsion: the first two lines
declare negative periodicity (−1, −2), the third positive (3). -/
def threeTermLines : List FrcLine :=
  [.dihe "A" "B" "C" "D" 1 1 0 (-1) none none,
   .dcont 1 2 0 (-2) none none,
   .dcont 1 3 0 3 none none]

/-- A parser state already inside the DIHE section. -/
def diheState : FrcState := { sec := some "DIHEDRAL" }

/-- Successful result of a fallible computation, if any (used to state
concrete evaluations, since `Except` carries no `DecidableEq`). -/
def exOk {α : Type} : Except String α → Option α
  | .ok a => some a
  | .error _ => none

/-- A database holding one pending (unfinished) one-term dihedral under
both orientations of (A, B, C, D). -/
def pendingDB : ParamDB :=
  { dihedral_types := [(("A", "B", "C", "D"), 0), (("D", "C", "B", "A"), 0)],
    dihedArena := [[⟨1, 1, 0, q 6 5, 2⟩]] }

/-- The `finished_diheds` state matching `pendingDB`: both orientations
still awaiting continuation. -/
def pendingFinished : List (Key4 × Bool) :=
  [(("A", "B", "C", "D"), false), (("D", "C", "B", "A"), false)]

/-- A two-type prmtop for the LJ 12-6-4 example: type index 1 is the metal
`MG`, index 2 the water oxygen `OW`. -/
def exTdf : Nat → List String := fun j =>
  if j = 1 then ["MG"] else if j = 2 then ["OW"] else []

/-- Polarizabilities of the example types. -/
def exPolf : Nat → ℚ := fun j => if j = 1 then q 12 100 else q 1444 1000

/-- Flat pair indices of the example (from `NONBONDED_PARM_INDEX =
[1, 2, 2, 3]`): (metal, metal) ↦ 0 and (metal, OW) ↦ 1. -/
def exIdxf : Nat → Nat → Nat := fun _ j => if j = 1 then 0 else 1

/-- Tabulated C4 coefficient of the example metal. -/
def exC4f : Nat → ℚ := fun _ => q 1329 10

/-- The polarizability table of the example. -/
def exPollist : List (String × ℚ) := [("MG", q 12 100), ("OW", q 1444 1000)]

/-! ## Helper lemmas -/

theorem dget_dset_self {α β : Type} [DecidableEq α]
    (d : List (α × β)) (k : α) (v : β) : dget (dset d k v) k = some v := by
  induction d with
  | nil => simp [dget, dset]
  | cons hd tl ih =>
      obtain ⟨k', v'⟩ := hd
      by_cases h : k' = k <;> simp [dget, dset, h, ih]

theorem dget_dset_ne {α β : Type} [DecidableEq α]
    (d : List (α × β)) (k k' : α) (v : β) (h : k' ≠ k) :
    dget (dset d k v) k' = dget d k' := by
  have hne : ¬ (k = k') := fun h' => h (Eq.symm h')
  induction d with
  | nil => simp [dget, dset, hne]
  | cons hd tl ih =>
      obtain ⟨k₀, v₀⟩ := hd
      by_cases h0 : k₀ = k
      · subst h0
        have hne' : ¬ (k' = k₀) := h
        simp [dget, dset, hne, hne']
      · by_cases h1 : k₀ = k' <;> simp [dget, dset, h0, h1, h, ih]

theorem dkeys_dset_of_mem {α β : Type} [DecidableEq α]
    (d : List (α × β)) (k : α) (v v0 : β) (h : dget d k = some v0) :
    dkeys (dset d k v) = dkeys d := by
  induction d with
  | nil => simp [dget] at h
  | cons hd tl ih =>
      obtain ⟨k₀, v₀⟩ := hd
      by_cases h0 : k₀ = k
      · simp [dset, dkeys, h0]
      · simp [dget, h0] at h
        simp only [dset, dkeys, h0, if_false, List.map_cons]
        have := ih h
        simp only [dkeys] at this
        rw [this]

theorem sort3_perm (a b c : String) :
    [(sort3 a b c).1, (sort3 a b c).2.1, (sort3 a b c).2.2].Perm [a, b, c] := by
  unfold sort3
  split_ifs
  · simpa using List.reverse_perm [a, b, c]
  · simpa using @List.perm_append_comm _ [b, c] [a]
  · exact List.Perm.swap a b [c]
  · simpa using @List.perm_append_comm _ [c] [a, b]
  · exact List.Perm.cons a (List.Perm.swap b c [])
  · exact List.Perm.refl _

theorem chLt_asymm (x y : List Char) (h : chLt x y = true) : chLt y x = false := by
  induction x generalizing y with
  | nil =>
      cases y with
      | nil => simp [chLt] at h
      | cons b bs => simp [chLt]
  | cons a as ih =>
      cases y with
      | nil => simp [chLt] at h
      | cons b bs =>
          simp only [chLt] at h ⊢
          by_cases h1 : a.toNat < b.toNat
          · have h2 : ¬ b.toNat < a.toNat := by omega
            simp [h1, h2]
          · by_cases h2 : b.toNat < a.toNat
            · simp [h1, h2] at h
            · simp only [h1, h2, if_false] at h ⊢
              exact ih bs h

theorem slt_asymm (x y : String) (h : slt x y = true) : slt y x = false :=
  chLt_asymm x.data y.data h

theorem sort3_sorted (a b c : String) :
    slt (sort3 a b c).2.1 (sort3 a b c).1 = false ∧
    slt (sort3 a b c).2.2 (sort3 a b c).2.1 = false := by
  unfold sort3
  split_ifs with h1 h2 h3 h4 h5
  · exact ⟨slt_asymm _ _ h2, slt_asymm _ _ h1⟩
  · exact ⟨Bool.of_not_eq_true h2, slt_asymm _ _ h3⟩
  · exact ⟨slt_asymm _ _ h1, Bool.of_not_eq_true h3⟩
  · exact ⟨slt_asymm _ _ h4, Bool.of_not_eq_true h1⟩
  · exact ⟨Bool.of_not_eq_true h4, slt_asymm _ _ h5⟩
  · exact ⟨Bool.of_not_eq_true h1, Bool.of_not_eq_true h5⟩

theorem q_eq (n : Int) (d : Nat) : q n d = (n : ℚ) / d := by
  rw [q, Rat.mkRat_eq_divInt, Rat.divInt_eq_div]
  norm_cast

theorem qadd_eq (a b : ℚ) : qadd a b = a + b := by
  rw [qadd, Rat.mkRat_eq_divInt]
  conv_rhs => rw [← Rat.num_divInt_den a, ← Rat.num_divInt_den b]
  rw [Rat.divInt_add_divInt _ _ (Int.natCast_ne_zero.mpr a.den_nz)
    (Int.natCast_ne_zero.mpr b.den_nz)]
  push_cast
  ring_nf

theorem qmul_eq (a b : ℚ) : qmul a b = a * b := by
  rw [qmul, Rat.mkRat_eq_divInt]
  conv_rhs => rw [← Rat.num_divInt_den a, ← Rat.num_divInt_den b]
  rw [Rat.divInt_mul_divInt']
  push_cast
  ring_nf

theorem qneg_eq (a : ℚ) : qneg a = -a := by
  rw [qneg, Rat.mkRat_eq_divInt, ← Rat.neg_def]

theorem qsub_eq (a b : ℚ) : qsub a b = a - b := by
  rw [qsub, qadd_eq, qneg_eq, sub_eq_add_neg]

theorem qinv_eq (a : ℚ) : qinv a = a⁻¹ := by
  conv_rhs => rw [← Rat.num_divInt_den a, Rat.inv_divInt']
  unfold qinv
  by_cases h : a.num < 0
  · rw [if_pos h, Rat.mkRat_eq_divInt]
    have habs : ((a.num.natAbs : ℤ)) = -a.num := Int.ofNat_natAbs_of_nonpos (le_of_lt h)
    rw [habs, Rat.divInt_neg, neg_neg]
  · rw [if_neg h, Rat.mkRat_eq_divInt]
    have habs : ((a.num.natAbs : ℤ)) = a.num :=
      Int.natAbs_of_nonneg (le_of_not_lt h)
    rw [habs]

theorem qdiv_eq (a b : ℚ) : qdiv a b = a / b := by
  rw [qdiv, qmul_eq, qinv_eq, div_eq_mul_inv]

theorem qabs_eq (a : ℚ) : qabs a = |a| := by
  rcases le_or_lt 0 a with h | h
  · have hn : 0 ≤ a.num := Rat.num_nonneg.mpr h
    rw [abs_of_nonneg h, qabs, Int.natAbs_of_nonneg hn]
    exact Rat.mkRat_self a
  · have hn : a.num ≤ 0 := le_of_lt (Rat.num_neg.mpr h)
    rw [abs_of_neg h, qabs, Int.ofNat_natAbs_of_nonpos hn]
    rw [show mkRat (-a.num) a.den = qneg a from rfl, qneg_eq]

theorem dget_foldl_dset_const {α β γ : Type} [DecidableEq α] (f : γ → α) (v : β)
    (l : List γ) (nb0 : List (α × β)) (key : α) :
    dget (l.foldl (fun nb x => dset nb (f x) v) nb0) key =
      if key ∈ l.map f then some v else dget nb0 key := by
  induction l generalizing nb0 with
  | nil => simp
  | cons x xs ih =>
      simp only [List.foldl_cons, List.map_cons, List.mem_cons]
      rw [ih]
      by_cases hx : key = f x
      · subst hx
        by_cases hmem : f x ∈ xs.map f <;> simp [hmem, dget_dset_self]
      · by_cases hmem : key ∈ xs.map f <;>
          simp [hmem, hx, dget_dset_ne nb0 (f x) key v hx]

theorem dget_foldl_foldl_dset_const {α β γ δ : Type} [DecidableEq α]
    (g : γ → δ → α) (v : β) (l1 : List γ) (l2 : List δ)
    (nb0 : List (α × β)) (key : α) :
    dget (l1.foldl (fun nb x => l2.foldl (fun nb y => dset nb (g x y) v) nb) nb0) key =
      if key ∈ l1.flatMap (fun x => l2.map (g x)) then some v else dget nb0 key := by
  induction l1 generalizing nb0 with
  | nil => simp
  | cons x xs ih =>
      simp only [List.foldl_cons, List.flatMap_cons, List.mem_append]
      rw [ih, dget_foldl_dset_const]
      by_cases h1 : key ∈ xs.flatMap (fun x => l2.map (g x)) <;>
        by_cases h2 : key ∈ l2.map (g x) <;> simp [h1, h2]

theorem dedupById_ids_nodup {α : Type} (l : List (α × Nat)) (done : List Nat) :
    ((dedupById l done).map Prod.snd).Nodup ∧
      ∀ s ∈ (dedupById l done).map Prod.snd, s ∉ done := by
  induction l generalizing done with
  | nil => simp [dedupById]
  | cons e rest ih =>
      obtain ⟨key, slot⟩ := e
      by_cases h : slot ∈ done
      · simpa [dedupById, h] using ih done
      · obtain ⟨ihn, ihd⟩ := ih (slot :: done)
        refine ⟨?_, ?_⟩
        · simp only [dedupById, h, if_false, List.map_cons, List.nodup_cons]
          exact ⟨fun hmem => (ihd _ hmem) (List.mem_cons_self _ _), ihn⟩
        · intro s hs
          simp only [dedupById, h, if_false, List.map_cons, List.mem_cons] at hs
          rcases hs with rfl | hs
          · exact h
          · intro hdone
            exact (ihd _ hs) (List.mem_cons_of_mem _ hdone)

theorem dedupById_ids_mem {α : Type} (l : List (α × Nat)) (done : List Nat) (s : Nat) :
    s ∈ (dedupById l done).map Prod.snd ↔ s ∈ l.map Prod.snd ∧ s ∉ done := by
  induction l generalizing done with
  | nil => simp [dedupById]
  | cons e rest ih =>
      obtain ⟨key, slot⟩ := e
      simp only [dedupById]
      by_cases h : slot ∈ done
      · rw [if_pos h, ih]
        simp only [List.map_cons, List.mem_cons]
        constructor
        · rintro ⟨hm, hn⟩
          exact ⟨Or.inr hm, hn⟩
        · rintro ⟨hm, hn⟩
          rcases hm with rfl | hm
          · exact absurd h hn
          · exact ⟨hm, hn⟩
      · rw [if_neg h]
        simp only [List.map_cons, List.mem_cons, ih]
        constructor
        · rintro (rfl | ⟨hm, hn⟩)
          · exact ⟨Or.inl rfl, h⟩
          · refine ⟨Or.inr hm, fun hd => hn (Or.inr hd)⟩
        · rintro ⟨hm, hn⟩
          rcases hm with rfl | hm
          · exact Or.inl rfl
          · by_cases hsl : s = slot
            · exact Or.inl hsl
            · refine Or.inr ⟨hm, fun hd => ?_⟩
              rcases hd with rfl | hd
              · exact hsl rfl
              · exact hn hd

/-! ## Claim theorems -/

/-- C2 counterexample: a wildcard in original position 2 is *not* moved to
position 1 by the parser — input (a1=N, a2=X, a3=CA, a4=H) stores its
record under the plainly sorted key (H, N, CA, X), and the key the claim
prescribes, (X, H, CA, N), is absent. -/
theorem improper_wildcard_counterexample :
    dget (process_improper_line {} "N" "X" "CA" "H" (q 11 10) 180 2).improper_periodic_types
        ("X", "H", "CA", "N") = none ∧
    dget (process_improper_line {} "N" "X" "CA" "H" (q 11 10) 180 2).improper_periodic_types
        ("H", "N", "CA", "X") = some ⟨q 11 10, 2, 180, q 6 5, 2⟩ := by
  decide

/-- C2 (amended): for every improper line parsed, the stored key keeps
atom 3 fixed as the center and sorts the flanking atoms {1,2,4} lexically
— in all cases, wildcard or not (wildcard renormalization happens only in
the serializer); in particular input (N, C, CA, H) yields key
(C, H, CA, N). -/
theorem improper_flanking_sorted (db : ParamDB) (a1 a2 a3 a4 : String)
    (k phi per : ℚ) :
    (∃ b1 b2 b4 : String,
      List.Perm [b1, b2, b4] [a1, a2, a4] ∧
      slt b2 b1 = false ∧ slt b4 b2 = false ∧
      dget (process_improper_line db a1 a2 a3 a4 k phi per).improper_periodic_types
        (b1, b2, a3, b4) = some ⟨k, per, phi, q 6 5, 2⟩) ∧
    dget (process_improper_line {} "N" "C" "CA" "H" (q 11 10) 180 2).improper_periodic_types
        ("C", "H", "CA", "N") = some ⟨q 11 10, 2, 180, q 6 5, 2⟩ := by
  refine ⟨⟨(sort3 a1 a2 a4).1, (sort3 a1 a2 a4).2.1, (sort3 a1 a2 a4).2.2,
    sort3_perm a1 a2 a4, (sort3_sorted a1 a2 a4).1, (sort3_sorted a1 a2 a4).2, ?_⟩,
    by decide⟩
  simp only [process_improper_line]
  exact dget_dset_self _ _ _

/-- C10: processing a mass line whose atom-type name is already in the
database reassigns only that record's mass — its atomic number and any
previously attached LJ radius/epsilon are kept, no atom type is created or
removed, every other atom type keeps its value, and every other table of
the database is untouched. -/
theorem mass_line_existing_type_frame (db : ParamDB) (name : String) (mass : ℚ)
    (at0 : AtomType) (h : dget db.atom_types name = some at0) :
    dget (process_mass_line db name mass).atom_types name =
      some { at0 with mass := mass } ∧
    (∀ n', n' ≠ name →
      dget (process_mass_line db name mass).atom_types n' = dget db.atom_types n') ∧
    dkeys (process_mass_line db name mass).atom_types = dkeys db.atom_types ∧
    (process_mass_line db name mass).bond_types = db.bond_types ∧
    (process_mass_line db name mass).bondArena = db.bondArena ∧
    (process_mass_line db name mass).angle_types = db.angle_types ∧
    (process_mass_line db name mass).angleArena = db.angleArena ∧
    (process_mass_line db name mass).dihedral_types = db.dihedral_types ∧
    (process_mass_line db name mass).dihedArena = db.dihedArena ∧
    (process_mass_line db name mass).improper_periodic_types = db.improper_periodic_types ∧
    (process_mass_line db name mass).nbfix_types = db.nbfix_types := by
  simp only [process_mass_line, h]
  exact ⟨dget_dset_self _ _ _,
    fun n' hne => dget_dset_ne _ _ _ _ hne,
    dkeys_dset_of_mem _ _ _ _ h, trivial, trivial, trivial, trivial, trivial,
    trivial, trivial, trivial⟩

/-- C10 witness: a type CA first created with mass 40.1 (inferring calcium,
atomic number 20) and then re-massed to 12.5 keeps atomic number 20. -/
theorem mass_line_existing_type_frame_witness :
    dget (process_mass_line {} "CA" (q 401 10)).atom_types "CA" =
      some ⟨"CA", 1, q 401 10, 20, none, none⟩ ∧
    dget (process_mass_line (process_mass_line {} "CA" (q 401 10)) "CA" (q 25 2)).atom_types "CA" =
      some ⟨"CA", 1, q 25 2, 20, none, none⟩ :=
  ⟨by decide,
   (mass_line_existing_type_frame (process_mass_line {} "CA" (q 401 10)) "CA" (q 25 2)
      ⟨"CA", 1, q 401 10, 20, none, none⟩ (by decide)).1⟩

/-- C5 (code bug): `write` raises for a style other than `frcmod`/`parm`,
but after that validation it never consults `style` again — `style='parm'`
produces the identical sectioned frcmod-layout output (with MASS/BOND/…
headers), not the headerless parm.dat layout the docstring promises. -/
theorem write_style_parm_is_frcmod_layout (db : ParamDB) (title : String) :
    write_frcmod db "parm" title = write_frcmod db "frcmod" title ∧
    write_frcmod db "xyz" title =
      .error "style must be either frcmod or parm, not xyz" ∧
    (exOk (write_frcmod exampleDB "parm" "t")).map (List.take 2) =
      some [FrcLine.title "t", FrcLine.header "MASS"] := by
  refine ⟨?_, ?_, by decide⟩
  · simp [write_frcmod]
  · rfl

/-- C4 (code bug): round-tripping `exampleDB` through `write` (frcmod
style) and `load_parameters` does not reproduce the NBFIX record: the
writer emits the four LJEDIT numeric fields in the order
(eps, rmin/2, eps, rmin/2) while its own parser reads them as
(rmin1, eps1, rmin2, eps2), so the stored pair (eps=3, rmin=4) comes back
as (2, 6).  `math.sqrt` is instantiated with `qsqrt`, which agrees with
it on the perfect square (4/2)·(4/2) arising here. -/
theorem roundtrip_nbfix_swapped :
    dget exampleDB.nbfix_types ("A", "B") = some (3, 4) ∧
    (exOk ((write_frcmod exampleDB "frcmod" "t").bind (parse_written qsqrt))).map
        (fun db => dget db.nbfix_types ("A", "B")) =
      some (some (2, 6)) ∧
    ((2 : ℚ), (6 : ℚ)) ≠ ((3 : ℚ), (4 : ℚ)) :=
  ⟨by decide, by decide, by decide⟩

/-- C3: a bond (or angle) line binds the forward and the reverse key to
the identical freshly created record (the same arena slot, i.e. reference
equality in the Python code), and the serializer writes each shared record
exactly once, eliminating duplicates by record identity (`id(typ)`) rather
than by key: each record identity referenced from the map accounts for
exactly one emitted line. -/
theorem bond_angle_shared_record_and_dedup :
    (∀ (db : ParamDB) (a1 a2 : String) (k req : ℚ),
      dget (process_bond_line db a1 a2 k req).bond_types (a1, a2) =
          some db.bondArena.length ∧
      dget (process_bond_line db a1 a2 k req).bond_types (a2, a1) =
          some db.bondArena.length ∧
      (process_bond_line db a1 a2 k req).bondArena.get? db.bondArena.length =
          some ⟨k, req⟩) ∧
    (∀ (db : ParamDB) (a1 a2 a3 : String) (k teq : ℚ),
      dget (process_angle_line db a1 a2 a3 k teq).angle_types (a1, a2, a3) =
          some db.angleArena.length ∧
      dget (process_angle_line db a1 a2 a3 k teq).angle_types (a3, a2, a1) =
          some db.angleArena.length ∧
      (process_angle_line db a1 a2 a3 k teq).angleArena.get? db.angleArena.length =
          some ⟨k, teq⟩) ∧
    (∀ (db : ParamDB) (s : Nat),
      List.count s ((dedupById db.bond_types []).map Prod.snd) =
        if s ∈ db.bond_types.map Prod.snd then 1 else 0) ∧
    (∀ (db : ParamDB) (s : Nat),
      List.count s ((dedupById db.angle_types []).map Prod.snd) =
        if s ∈ db.angle_types.map Prod.snd then 1 else 0) ∧
    (∀ db : ParamDB,
      (write_bond_lines db).length = (dedupById db.bond_types []).length ∧
      (write_angle_lines db).length = (dedupById db.angle_types []).length) := by
  have hcount : ∀ {α : Type} [DecidableEq α] (l : List (α × Nat)) (s : Nat),
      List.count s ((dedupById l []).map Prod.snd) =
        if s ∈ l.map Prod.snd then 1 else 0 := by
    intro α _ l s
    by_cases hmem : s ∈ l.map Prod.snd
    · rw [if_pos hmem]
      exact List.count_eq_one_of_mem (dedupById_ids_nodup l []).1
        ((dedupById_ids_mem l [] s).mpr ⟨hmem, by simp⟩)
    · rw [if_neg hmem]
      refine List.count_eq_zero_of_not_mem (fun hc => hmem ?_)
      exact ((dedupById_ids_mem l [] s).mp hc).1
  refine ⟨?_, ?_, fun db s => hcount _ _, fun db s => hcount _ _,
    fun db => ⟨by simp [write_bond_lines], by simp [write_angle_lines]⟩⟩
  · intro db a1 a2 k req
    refine ⟨?_, ?_, ?_⟩
    · by_cases heq : ((a2, a1) : Key2) = (a1, a2)
      · rw [process_bond_line]
        simp only
        rw [heq, dget_dset_self]
      · rw [process_bond_line]
        simp only
        rw [dget_dset_ne _ _ _ _ (fun h => heq h.symm), dget_dset_self]
    · rw [process_bond_line]
      simp only
      rw [dget_dset_self]
    · simp [process_bond_line, List.get?_concat_length]
  · intro db a1 a2 a3 k teq
    refine ⟨?_, ?_, ?_⟩
    · by_cases heq : ((a3, a2, a1) : Key3) = (a1, a2, a3)
      · rw [process_angle_line]
        simp only
        rw [heq, dget_dset_self]
      · rw [process_angle_line]
        simp only
        rw [dget_dset_ne _ _ _ _ (fun h => heq h.symm), dget_dset_self]
    · rw [process_angle_line]
      simp only
      rw [dget_dset_self]
    · simp [process_angle_line, List.get?_concat_length]

theorem parm_loaded_key_designated (f k : String) (h : parm_loaded_key f = some k) :
    k = "parm10.dat" ∨ k = "parm99.dat" ∨ k = "parm15" := by
  unfold parm_loaded_key at h
  by_cases hd : (if startsWithCh "parm15".data f.data then "parm15" else f) = "parm10.dat" ∨
      (if startsWithCh "parm15".data f.data then "parm15" else f) = "parm99.dat" ∨
      (if startsWithCh "parm15".data f.data then "parm15" else f) = "parm15"
  · rw [if_pos hd] at h
    injection h with h'
    rw [h'] at hd
    exact hd
  · rw [if_neg hd] at h
    cases h

theorem parm_flag_mk_warns (st : LeaprcState) (w : List String) (k : String) :
    parm_flag { st with warns := w } k = parm_flag st k := by
  simp [parm_flag]

theorem parm_flag_mk_loaded (st : LeaprcState) (l : List String) (k : String) :
    parm_flag { st with loaded := l } k = parm_flag st k := by
  simp [parm_flag]

theorem set_parm_flag_loaded (st : LeaprcState) (k : String) :
    (set_parm_flag st k).loaded = st.loaded := by
  unfold set_parm_flag
  split_ifs <;> rfl

theorem parm_flag_set_self (st : LeaprcState) (k : String)
    (hk : k = "parm10.dat" ∨ k = "parm99.dat" ∨ k = "parm15") :
    parm_flag (set_parm_flag st k) k = true := by
  rcases hk with rfl | rfl | rfl <;> simp [parm_flag, set_parm_flag]

theorem parm_flag_set_other (st : LeaprcState) (k k' : String)
    (hk : k = "parm10.dat" ∨ k = "parm99.dat" ∨ k = "parm15")
    (hk' : k' = "parm10.dat" ∨ k' = "parm99.dat" ∨ k' = "parm15")
    (hne : k ≠ k') : parm_flag (set_parm_flag st k') k = parm_flag st k := by
  rcases hk with rfl | rfl | rfl <;> rcases hk' with rfl | rfl | rfl <;>
    simp_all [parm_flag, set_parm_flag]

theorem process_loadamberparams_tracked_skip (st : LeaprcState) (f k' : String)
    (hpk : parm_loaded_key f = some k') (hflag : parm_flag st k' = true) :
    process_loadamberparams st f =
      { st with warns := st.warns ++ ["Skipping " ++ f ++ ": already loaded"] } := by
  simp [process_loadamberparams, hpk, hflag]

theorem process_loadamberparams_tracked_load (st : LeaprcState) (f k' : String)
    (hpk : parm_loaded_key f = some k') (hflag : parm_flag st k' = false) :
    process_loadamberparams st f =
      { set_parm_flag st k' with loaded := st.loaded ++ [f] } := by
  simp [process_loadamberparams, hpk, hflag, set_parm_flag_loaded]

theorem process_loadamberparams_untracked (st : LeaprcState) (f : String)
    (hpk : parm_loaded_key f = none) :
    process_loadamberparams st f = { st with loaded := st.loaded ++ [f] } := by
  simp [process_loadamberparams, hpk]

theorem parm_flag_mk_flags_loaded (st : LeaprcState) (l : List String) (k k' : String) :
    parm_flag { set_parm_flag st k' with loaded := l } k =
      parm_flag (set_parm_flag st k') k := by
  simp [parm_flag, set_parm_flag]

theorem run_loadamberparams_count_le (fnames : List String) (st : LeaprcState)
    (k : String) (hk : k = "parm10.dat" ∨ k = "parm99.dat" ∨ k = "parm15") :
    (fnames.foldl process_loadamberparams st).loaded.countP
        (fun f => decide (parm_loaded_key f = some k)) ≤
      st.loaded.countP (fun f => decide (parm_loaded_key f = some k)) +
        (if parm_flag st k then 0 else 1) := by
  induction fnames generalizing st with
  | nil => exact Nat.le_add_right _ _
  | cons f fs ih =>
      refine le_trans (ih (process_loadamberparams st f)) ?_
      cases hpk : parm_loaded_key f with
      | none =>
          rw [process_loadamberparams_untracked st f hpk]
          have hc : (List.countP (fun g => decide (parm_loaded_key g = some k)) [f]) = 0 := by
            simp [List.countP, List.countP.go, hpk]
          simp only [List.countP_append, hc, parm_flag_mk_loaded, Nat.add_zero]
          exact le_refl _
      | some k' =>
          have hk' := parm_loaded_key_designated f k' hpk
          cases hflag : parm_flag st k' with
          | true =>
              rw [process_loadamberparams_tracked_skip st f k' hpk hflag,
                parm_flag_mk_warns]
          | false =>
              rw [process_loadamberparams_tracked_load st f k' hpk hflag]
              by_cases hkk : k = k'
              · subst hkk
                have h1 : parm_flag { set_parm_flag st k with loaded := st.loaded ++ [f] } k
                    = true := by
                  rw [parm_flag_mk_flags_loaded, parm_flag_set_self st k hk]
                have hc : (List.countP (fun g => decide (parm_loaded_key g = some k)) [f])
                    = 1 := by
                  simp [List.countP, List.countP.go, hpk]
                simp [h1, hflag, List.countP_append, hc]
              · have h1 : parm_flag { set_parm_flag st k' with loaded := st.loaded ++ [f] } k
                    = parm_flag st k := by
                  rw [parm_flag_mk_flags_loaded, parm_flag_set_other st k k' hk hk' hkk]
                have hkk' : ¬ (k' = k) := fun h => hkk h.symm
                have hc : (List.countP (fun g => decide (parm_loaded_key g = some k)) [f])
                    = 0 := by
                  simp [List.countP, List.countP.go, hpk, hkk']
                rw [h1]
                simp only [List.countP_append, hc, Nat.add_zero]
                exact le_refl _

/-- C7: across the whole `loadamberparams` directive stream of one leaprc
source, each of the three designated identifiers (the exact filenames
`parm10.dat` and `parm99.dat`, and the `parm15` stem covering every
filename starting with it) is loaded at most once; a reference whose flag
is already set is skipped with a `Skipping …: already loaded` warning,
while the first reference loads the file and sets the flag.  A leaprc with
two `loadamberparams parm10.dat` directives loads it once and warns
once. -/
theorem core_parm_files_loaded_once :
    (∀ (fnames : List String) (k : String),
      (run_loadamberparams fnames).loaded.countP
          (fun f => decide (parm_loaded_key f = some k)) ≤ 1) ∧
    (∀ (st : LeaprcState) (fname k : String), parm_loaded_key fname = some k →
      parm_flag st k = true →
      process_loadamberparams st fname =
        { st with warns := st.warns ++ ["Skipping " ++ fname ++ ": already loaded"] }) ∧
    (∀ (st : LeaprcState) (fname k : String), parm_loaded_key fname = some k →
      parm_flag st k = false →
      (process_loadamberparams st fname).loaded = st.loaded ++ [fname] ∧
      parm_flag (process_loadamberparams st fname) k = true) ∧
    run_loadamberparams ["parm10.dat", "parm10.dat"] =
      { parm10_loaded := true, parm99_loaded := false, parm15_loaded := false,
        loaded := ["parm10.dat"],
        warns := ["Skipping parm10.dat: already loaded"] } := by
  refine ⟨?_, ?_, ?_, by decide⟩
  · intro fnames k
    by_cases hk : k = "parm10.dat" ∨ k = "parm99.dat" ∨ k = "parm15"
    · have h := run_loadamberparams_count_le fnames {} k hk
      simpa [run_loadamberparams, parm_flag] using h
    · rw [List.countP_eq_zero.mpr]
      · exact Nat.zero_le 1
      · intro f hf
        simp only [decide_eq_true_eq]
        intro hc
        exact hk (parm_loaded_key_designated f k hc)
  · exact fun st fname k hpk hflag =>
      process_loadamberparams_tracked_skip st fname k hpk hflag
  · intro st fname k hpk hflag
    rw [process_loadamberparams_tracked_load st fname k hpk hflag]
    exact ⟨rfl, by
      rw [parm_flag_mk_flags_loaded,
        parm_flag_set_self st k (parm_loaded_key_designated fname k hpk)]⟩

/-- C7 witness: the skip-with-warning and first-load branches applied at
`parm10.dat` with the flag set and unset. -/
theorem core_parm_files_loaded_once_witness :
    parm_loaded_key "parm10.dat" = some "parm10.dat" ∧
    parm_flag { parm10_loaded := true } "parm10.dat" = true ∧
    process_loadamberparams { parm10_loaded := true } "parm10.dat" =
      { parm10_loaded := true,
        warns := ["Skipping parm10.dat: already loaded"] } ∧
    parm_flag ({} : LeaprcState) "parm10.dat" = false ∧
    (process_loadamberparams {} "parm10.dat").loaded = [] ++ ["parm10.dat"] :=
  ⟨by decide, by decide,
   core_parm_files_loaded_once.2.1 { parm10_loaded := true } "parm10.dat" "parm10.dat"
     (by decide) (by decide),
   by decide,
   (core_parm_files_loaded_once.2.2.1 {} "parm10.dat" "parm10.dat"
     (by decide) (by decide)).1⟩

/-- C6: an LJEDIT/NBFIX line stores the pair (sqrt(eps1·eps2), rmin1+rmin2)
under the lexically sorted atom pair; when an equivalencing table is in
effect (parm.dat layout) the same value is also stored for every pair
formed with the types equivalenced to a1, with those equivalenced to a2,
and for the full cross product of both equivalence sets. -/
theorem nbfix_stored_and_propagated (msqrt : ℚ → ℚ) (db : ParamDB)
    (a1 a2 : String) (rmin1 eps1 rmin2 eps2 : ℚ) (eqt : EqTable) :
    (dget (process_nbfix_line msqrt db a1 a2 rmin1 eps1 rmin2 eps2 none).nbfix_types
        (nbkey a1 a2) = some (msqrt (eps1 * eps2), rmin1 + rmin2)) ∧
    (dget (process_nbfix_line msqrt db a1 a2 rmin1 eps1 rmin2 eps2
        (some eqt)).nbfix_types (nbkey a1 a2) =
      some (msqrt (eps1 * eps2), rmin1 + rmin2)) ∧
    (∀ oa1, oa1 ∈ eqget eqt a1 →
      dget (process_nbfix_line msqrt db a1 a2 rmin1 eps1 rmin2 eps2
        (some eqt)).nbfix_types (nbkey oa1 a2) =
      some (msqrt (eps1 * eps2), rmin1 + rmin2)) ∧
    (∀ oa2, oa2 ∈ eqget eqt a2 →
      dget (process_nbfix_line msqrt db a1 a2 rmin1 eps1 rmin2 eps2
        (some eqt)).nbfix_types (nbkey a1 oa2) =
      some (msqrt (eps1 * eps2), rmin1 + rmin2)) ∧
    (∀ oa1 oa2, oa1 ∈ eqget eqt a1 → oa2 ∈ eqget eqt a2 →
      dget (process_nbfix_line msqrt db a1 a2 rmin1 eps1 rmin2 eps2
        (some eqt)).nbfix_types (nbkey oa1 oa2) =
      some (msqrt (eps1 * eps2), rmin1 + rmin2)) := by
  rw [← qmul_eq, ← qadd_eq]
  unfold process_nbfix_line
  simp only
  refine ⟨dget_dset_self _ _ _, ?_, ?_, ?_, ?_⟩
  · rw [dget_foldl_foldl_dset_const, dget_foldl_dset_const, dget_foldl_dset_const]
    split_ifs <;> first | rfl | exact dget_dset_self _ _ _
  · intro oa1 hmem
    rw [dget_foldl_foldl_dset_const, dget_foldl_dset_const, dget_foldl_dset_const]
    split_ifs with h1 h2 h3 <;>
      first
        | rfl
        | exact absurd (List.mem_map_of_mem (fun x => nbkey x a2) hmem) h3
  · intro oa2 hmem
    rw [dget_foldl_foldl_dset_const, dget_foldl_dset_const, dget_foldl_dset_const]
    split_ifs with h1 h2 <;>
      first
        | rfl
        | exact absurd (List.mem_map_of_mem (fun x => nbkey a1 x) hmem) h2
  · intro oa1 oa2 hmem1 hmem2
    rw [dget_foldl_foldl_dset_const, dget_foldl_dset_const, dget_foldl_dset_const]
    split_ifs with h1 <;>
      first
        | rfl
        | exact absurd (List.mem_flatMap.mpr
            ⟨oa1, hmem1, List.mem_map_of_mem (fun x => nbkey oa1 x) hmem2⟩) h1

/-- C6 witness: type A equivalenced to {A1, A2} with an LJEDIT line for
(A, B) produces NBFIX entries for (A, B), (A1, B) and (A2, B) holding the
same combined value. -/
theorem nbfix_stored_and_propagated_witness :
    ("A1" ∈ eqget [("A", ["A1", "A2"])] "A") ∧
    ("A2" ∈ eqget [("A", ["A1", "A2"])] "A") ∧
    dget (process_nbfix_line qsqrt {} "A" "B" 1 4 2 1
        (some [("A", ["A1", "A2"])])).nbfix_types (nbkey "A" "B") =
      some (qsqrt ((4 : ℚ) * 1), (1 : ℚ) + 2) ∧
    dget (process_nbfix_line qsqrt {} "A" "B" 1 4 2 1
        (some [("A", ["A1", "A2"])])).nbfix_types (nbkey "A1" "B") =
      some (qsqrt ((4 : ℚ) * 1), (1 : ℚ) + 2) ∧
    dget (process_nbfix_line qsqrt {} "A" "B" 1 4 2 1
        (some [("A", ["A1", "A2"])])).nbfix_types (nbkey "A2" "B") =
      some (qsqrt ((4 : ℚ) * 1), (1 : ℚ) + 2) :=
  ⟨by decide, by decide,
   (nbfix_stored_and_propagated qsqrt {} "A" "B" 1 4 2 1 [("A", ["A1", "A2"])]).2.1,
   (nbfix_stored_and_propagated qsqrt {} "A" "B" 1 4 2 1 [("A", ["A1", "A2"])]).2.2.1
     "A1" (by decide),
   (nbfix_stored_and_propagated qsqrt {} "A" "B" 1 4 2 1 [("A", ["A1", "A2"])]).2.2.1
     "A2" (by decide)⟩

/-- C1: multi-term dihedral continuation semantics.  (i) A full dihedral
line for a key whose prior term set is complete (`finished` defaults to
true) replaces the entry for the key and its reverse with a fresh
single-term sequence — both keys bound to the same new record — storing
the absolute value of the periodicity, marking both keys as awaiting
continuation exactly when the periodicity was negative, and returning the
key for the next call exactly then.  (ii) A continuation line (numbers
only) appends its term to the pending key's existing shared sequence.
(iii) Three terms with periodicities −1, −2, 3 yield one 3-element
sequence reachable identically (same record) through the forward and the
reverse key. -/
theorem dihedral_multiterm_semantics :
    (∀ (db : ParamDB) (finished : List (Key4 × Bool)) (last_key : Option Key4)
        (a1 a2 a3 a4 : String) (div k phi per : ℚ) (scee scnb : Option ℚ),
      (dget finished (a1, a2, a3, a4)).getD true = true →
      ∃ db' fin' ret,
        process_dihedral_line (.full a1 a2 a3 a4 div k phi per scee scnb)
            db finished last_key = .ok (db', fin', ret) ∧
        dget db'.dihedral_types (a1, a2, a3, a4) = some db.dihedArena.length ∧
        dget db'.dihedral_types (a4, a3, a2, a1) = some db.dihedArena.length ∧
        db'.dihedArena.get? db.dihedArena.length =
          some [⟨qdiv k div, |per|, phi, scee.getD (q 6 5), scnb.getD 2⟩] ∧
        (dget fin' (a1, a2, a3, a4)).getD true = decide (0 ≤ per) ∧
        (dget fin' (a4, a3, a2, a1)).getD true = decide (0 ≤ per) ∧
        ret = (if per < 0 then some (a1, a2, a3, a4) else none)) ∧
    (∀ (db : ParamDB) (finished : List (Key4 × Bool)) (lk : Key4)
        (div k phi per : ℚ) (scee scnb : Option ℚ) (slot : Nat)
        (ts : List DihedralType),
      dget finished lk = some false →
      dget db.dihedral_types lk = some slot →
      db.dihedArena.get? slot = some ts →
      ∃ db' fin' ret,
        process_dihedral_line (.cont div k phi per scee scnb)
            db finished (some lk) = .ok (db', fin', ret) ∧
        db'.dihedral_types = db.dihedral_types ∧
        db'.dihedArena.get? slot =
          some (ts ++ [⟨qdiv k div, |per|, phi, scee.getD (q 6 5), scnb.getD 2⟩]) ∧
        (dget fin' lk).getD true = decide (0 ≤ per) ∧
        (dget fin' (rev4 lk)).getD true = decide (0 ≤ per) ∧
        ret = (if per < 0 then some lk else none)) ∧
    (exOk (parse_frcmod_lines qsqrt threeTermLines diheState)).map
        (fun st => (dget st.db.dihedral_types ("A", "B", "C", "D"),
                    dget st.db.dihedral_types ("D", "C", "B", "A"),
                    st.db.dihedArena)) =
      some (some 0, some 0,
        [[⟨1, 1, 0, q 6 5, 2⟩, ⟨2, 2, 0, q 6 5, 2⟩, ⟨3, 3, 0, q 6 5, 2⟩]]) := by
  refine ⟨?_, ?_, by decide⟩
  · intro db finished last_key a1 a2 a3 a4 div k phi per scee scnb hfin
    rw [← qabs_eq]
    refine ⟨{ db with
        dihedArena := db.dihedArena ++
          [[⟨qdiv k div, qabs per, phi, scee.getD (q 6 5), scnb.getD 2⟩]],
        dihedral_types :=
          dset (dset db.dihedral_types (a1, a2, a3, a4) db.dihedArena.length)
            (a4, a3, a2, a1) db.dihedArena.length },
      dset (dset finished (a1, a2, a3, a4) (decide (0 ≤ per)))
        (a4, a3, a2, a1) (decide (0 ≤ per)),
      if per < 0 then some (a1, a2, a3, a4) else none,
      ?_, ?_, ?_, ?_, ?_, ?_, rfl⟩
    · simp only [process_dihedral_line, bind, Except.bind, pure, Except.pure]
      rw [if_pos hfin]
      rfl
    · by_cases heq : ((a4, a3, a2, a1) : Key4) = (a1, a2, a3, a4)
      · rw [heq, dget_dset_self]
      · rw [dget_dset_ne _ _ _ _ (fun h => heq h.symm), dget_dset_self]
    · rw [dget_dset_self]
    · exact List.get?_concat_length _ _
    · by_cases heq : ((a4, a3, a2, a1) : Key4) = (a1, a2, a3, a4)
      · rw [heq, dget_dset_self]
        rfl
      · rw [dget_dset_ne _ _ _ _ (fun h => heq h.symm), dget_dset_self]
        rfl
    · rw [dget_dset_self]
      rfl
  · intro db finished lk div k phi per scee scnb slot ts hfin hslot harena
    have hfin' : (dget finished lk).getD true = false := by rw [hfin]; rfl
    rw [← qabs_eq]
    refine ⟨{ db with
        dihedArena :=
          db.dihedArena.set slot
            (ts ++ [⟨qdiv k div, qabs per, phi, scee.getD (q 6 5), scnb.getD 2⟩]) },
      dset (dset finished lk (decide (0 ≤ per))) (rev4 lk) (decide (0 ≤ per)),
      if per < 0 then some lk else none,
      ?_, rfl, ?_, ?_, ?_, rfl⟩
    · simp only [process_dihedral_line, hfin, hslot, harena, hfin',
        bind, Except.bind, pure, Except.pure, Option.getD_some]
      rfl
    · have hlt : slot < db.dihedArena.length := by
        by_contra hge
        rw [List.get?_eq_none.mpr (le_of_not_lt hge)] at harena
        cases harena
      simp only [List.get?_eq_getElem?]
      exact List.getElem?_set_eq_of_lt _ hlt
    · by_cases heq : rev4 lk = lk
      · rw [heq, dget_dset_self]
        rfl
      · rw [dget_dset_ne _ _ _ _ (fun h => heq h.symm), dget_dset_self]
        rfl
    · rw [dget_dset_self]
      rfl

/-- C1 witness: part (i) applied at an empty `finished_diheds` map (whose
default is "finished") with periodicity −1, and part (ii) applied at a
pending one-term state with a positive final periodicity. -/
theorem dihedral_multiterm_semantics_witness :
    ((dget ([] : List (Key4 × Bool)) ("A", "B", "C", "D")).getD true = true) ∧
    (dget pendingFinished ("A", "B", "C", "D") = some false) ∧
    (dget pendingDB.dihedral_types ("A", "B", "C", "D") = some 0) ∧
    (pendingDB.dihedArena.get? 0 = some [⟨1, 1, 0, q 6 5, 2⟩]) ∧
    (∃ db' fin' ret,
      process_dihedral_line (.full "A" "B" "C" "D" 1 1 0 (q (-1) 1) none none)
          ({} : ParamDB) [] none = .ok (db', fin', ret) ∧
      dget db'.dihedral_types ("A", "B", "C", "D") =
        some ({} : ParamDB).dihedArena.length ∧
      dget db'.dihedral_types ("D", "C", "B", "A") =
        some ({} : ParamDB).dihedArena.length ∧
      db'.dihedArena.get? ({} : ParamDB).dihedArena.length =
        some [⟨qdiv 1 1, |q (-1) 1|, 0, (none : Option ℚ).getD (q 6 5),
          (none : Option ℚ).getD 2⟩] ∧
      (dget fin' ("A", "B", "C", "D")).getD true = decide (0 ≤ q (-1) 1) ∧
      (dget fin' ("D", "C", "B", "A")).getD true = decide (0 ≤ q (-1) 1) ∧
      ret = (if q (-1) 1 < 0 then some ("A", "B", "C", "D") else none)) ∧
    (∃ db' fin' ret,
      process_dihedral_line (.cont 1 2 0 3 none none) pendingDB pendingFinished
          (some ("A", "B", "C", "D")) = .ok (db', fin', ret) ∧
      db'.dihedral_types = pendingDB.dihedral_types ∧
      db'.dihedArena.get? 0 =
        some ([⟨1, 1, 0, q 6 5, 2⟩] ++
          [⟨qdiv 2 1, |(3 : ℚ)|, 0, (none : Option ℚ).getD (q 6 5),
            (none : Option ℚ).getD 2⟩]) ∧
      (dget fin' ("A", "B", "C", "D")).getD true = decide (0 ≤ (3 : ℚ)) ∧
      (dget fin' (rev4 ("A", "B", "C", "D"))).getD true = decide (0 ≤ (3 : ℚ)) ∧
      ret = (if (3 : ℚ) < 0 then some ("A", "B", "C", "D") else none)) :=
  ⟨by decide, by decide, by decide, by decide,
   dihedral_multiterm_semantics.1 {} [] none "A" "B" "C" "D" 1 1 0 (q (-1) 1)
     none none (by decide),
   dihedral_multiterm_semantics.2.1 pendingDB pendingFinished ("A", "B", "C", "D")
     1 2 0 3 none none 0 [⟨1, 1, 0, q 6 5, 2⟩] (by decide) (by decide) (by decide)⟩

/-- C8: the format sniffer is total over file contents (the embedding is a
total function returning a `Bool`; every malformed shape lands in a
`return False` branch rather than raising): in particular, for any file
whose second line is nonblank, is not a section header, and has a second
token that fails to parse as a float, the sniffer answers `false` whatever
the other lines and tokens are; and a valid two-letter-type mass line
`"CA    12.010"` as line 2 answers `true`. -/
theorem id_format_total_and_examples :
    (∀ (l1 l2 : String) (rest : List String) (w0 w1 : List Char)
        (ws : List (List Char)),
      splitWs l2.data = w0 :: w1 :: ws →
      ¬ trimCh l2.data = [] →
      ¬ String.mk (trimRightCh l2.data) ∈ headerSet →
      pfloatCh w1 = none →
      id_format (l1 :: l2 :: rest) = false) ∧
    id_format ["PARM", "CA    12.010"] = true := by
  refine ⟨?_, by decide⟩
  intro l1 l2 rest w0 w1 ws hsplit htrim hhead hfloat
  simp only [id_format]
  rw [if_neg htrim, if_neg hhead]
  simp only [hsplit]
  split_ifs <;> simp [hfloat]

/-- C8 witness: the general false-branch applied to the line `"CA  xx"`,
whose second token is not a float. -/
theorem id_format_total_and_examples_witness :
    (splitWs ("CA  xx" : String).data = [['C', 'A'], ['x', 'x']]) ∧
    (¬ trimCh ("CA  xx" : String).data = []) ∧
    (¬ String.mk (trimRightCh ("CA  xx" : String).data) ∈ headerSet) ∧
    (pfloatCh ['x', 'x'] = none) ∧
    id_format ["PARM", "CA  xx"] = false :=
  ⟨by decide, by decide, by decide, by decide,
   id_format_total_and_examples.1 "PARM" "CA  xx" [] ['C', 'A'] ['x', 'x'] []
     (by decide) (by decide) (by decide) (by decide)⟩

theorem exOk_eq_some {α : Type} (e : Except String α) (x : α) :
    exOk e = some x ↔ e = .ok x := by
  cases e <;> simp [exOk]

theorem pyGet_ofNat {α : Type} (l : List α) (n : Nat) (x : α)
    (h : l.get? n = some x) : pyGet l (n : Int) = .ok x := by
  have hnn : ¬ ((n : Int) < 0) := by omega
  simp only [pyGet, if_neg hnn]
  rw [h]
  rfl

theorem pySet_ofNat {α : Type} (l : List α) (n : Nat) (v : α)
    (h : n < l.length) : pySet l (n : Int) v = .ok (l.set n v) := by
  have hnn : ¬ ((n : Int) < 0) := by omega
  simp only [pySet, if_neg hnn]
  rw [if_pos h]
  rfl

theorem c4ValueAt_append (tdf : Nat → List String) (idxf : Nat → Nat → Nat)
    (c4f : Nat → ℚ) (polf : Nat → ℚ) (tun : ℚ) (n : Nat)
    (l1 l2 : List (Nat × Nat)) (cur : ℚ) :
    c4ValueAt tdf idxf c4f polf tun n (l1 ++ l2) cur =
      c4ValueAt tdf idxf c4f polf tun n l2 (c4ValueAt tdf idxf c4f polf tun n l1 cur) := by
  induction l1 generalizing cur with
  | nil => rfl
  | cons p ps ih =>
      obtain ⟨m, j⟩ := p
      simp only [List.cons_append, c4ValueAt]
      split_ifs <;> exact ih _

theorem c4ValueAt_congr (tdf : Nat → List String) (idxf : Nat → Nat → Nat)
    (c4f c4f' : Nat → ℚ) (polf : Nat → ℚ) (tun : ℚ) (n : Nat)
    (ps : List (Nat × Nat)) (cur : ℚ)
    (h : ∀ p ∈ ps, c4f p.1 = c4f' p.1) :
    c4ValueAt tdf idxf c4f polf tun n ps cur =
      c4ValueAt tdf idxf c4f' polf tun n ps cur := by
  induction ps generalizing cur with
  | nil => rfl
  | cons p ps ih =>
      obtain ⟨m, j⟩ := p
      have hm : c4f m = c4f' m := h (m, j) (List.mem_cons_self _ _)
      simp only [c4ValueAt, hm]
      split_ifs <;>
        exact ih _ (fun p hp => h p (List.mem_cons_of_mem _ hp))

theorem c4ValueAt_no_hit (tdf : Nat → List String) (idxf : Nat → Nat → Nat)
    (c4f : Nat → ℚ) (polf : Nat → ℚ) (tun : ℚ) (n : Nat)
    (ps : List (Nat × Nat)) (cur : ℚ)
    (h : ∀ p ∈ ps, tdf p.2 = [] ∨ idxf p.1 p.2 ≠ n) :
    c4ValueAt tdf idxf c4f polf tun n ps cur = cur := by
  induction ps generalizing cur with
  | nil => rfl
  | cons p ps ih =>
      obtain ⟨m, j⟩ := p
      have hp := h (m, j) (List.mem_cons_self _ _)
      have hrest := fun p hp => h p (List.mem_cons_of_mem _ hp)
      simp only [c4ValueAt]
      by_cases h1 : tdf j = []
      · rw [if_pos h1]
        exact ih _ hrest
      · have hmiss : idxf m j ≠ n := by
          rcases hp with he | hm
          · exact absurd he h1
          · exact hm
        rw [if_neg h1, if_neg hmiss]
        exact ih _ hrest

theorem c4ValueAt_unique_ow (tdf : Nat → List String) (idxf : Nat → Nat → Nat)
    (c4f : Nat → ℚ) (polf : Nat → ℚ) (tun : ℚ)
    (m0 j0 : Nat) (ps : List (Nat × Nat)) (cur : ℚ)
    (how : tdf j0 = ["OW"])
    (hmem : (m0, j0) ∈ ps)
    (huniq : ∀ p ∈ ps, tdf p.2 ≠ [] → idxf p.1 p.2 = idxf m0 j0 → p = (m0, j0)) :
    c4ValueAt tdf idxf c4f polf tun (idxf m0 j0) ps cur = c4f m0 := by
  induction ps generalizing cur with
  | nil => cases hmem
  | cons p ps ih =>
      obtain ⟨m, j⟩ := p
      have hrest : ∀ p ∈ ps, tdf p.2 ≠ [] → idxf p.1 p.2 = idxf m0 j0 → p = (m0, j0) :=
        fun p hp => huniq p (List.mem_cons_of_mem _ hp)
      by_cases hhead : ((m, j) : Nat × Nat) = (m0, j0)
      · obtain ⟨rfl, rfl⟩ := Prod.ext_iff.mp hhead
        have hne : tdf j ≠ [] := by rw [how]; simp
        simp only [c4ValueAt, if_neg hne, if_pos (rfl : idxf m j = idxf m j),
          if_pos how]
        by_cases hmem' : ((m, j) : Nat × Nat) ∈ ps
        · exact ih _ hmem' hrest
        · refine c4ValueAt_no_hit _ _ _ _ _ _ _ _ ?_
          intro p hp
          by_cases hempty : tdf p.2 = []
          · exact Or.inl hempty
          · refine Or.inr (fun hidx => ?_)
            exact hmem' ((hrest p hp hempty hidx) ▸ hp)
      · have hmem' : ((m0, j0) : Nat × Nat) ∈ ps := by
          rcases List.mem_cons.mp hmem with h | h
          · exact absurd h.symm hhead
          · exact h
        simp only [c4ValueAt]
        split_ifs with h1 h2 h3
        · exact ih _ hmem' hrest
        · exact absurd (huniq (m, j) (List.mem_cons_self _ _) h1 h2) hhead
        · exact absurd (huniq (m, j) (List.mem_cons_self _ _) h1 h2) hhead
        · exact ih _ hmem' hrest

theorem c4ValueAt_no_ow (tdf : Nat → List String) (idxf : Nat → Nat → Nat)
    (c4f : Nat → ℚ) (polf : Nat → ℚ) (tun : ℚ) (n : Nat)
    (ps : List (Nat × Nat)) (cur : ℚ)
    (h : ∀ p ∈ ps, tdf p.2 ≠ [] → idxf p.1 p.2 = n → tdf p.2 ≠ ["OW"]) :
    c4ValueAt tdf idxf c4f polf tun n ps cur =
      cur + ((ps.filter (fun p => decide (¬ tdf p.2 = []) && decide (idxf p.1 p.2 = n))).map
        (fun p => c4f p.1 / WATER_POL * polf p.2 * tun)).sum := by
  induction ps generalizing cur with
  | nil => simp [c4ValueAt]
  | cons p ps ih =>
      obtain ⟨m, j⟩ := p
      have hrest := fun p hp => h p (List.mem_cons_of_mem _ hp)
      simp only [c4ValueAt, List.filter_cons]
      by_cases hempty : tdf j = []
      · have hb : (decide (¬ tdf ((m, j) : Nat × Nat).2 = []) &&
            decide (idxf ((m, j) : Nat × Nat).1 ((m, j) : Nat × Nat).2 = n)) = false := by
          simp [hempty]
        rw [if_pos hempty]
        simp only [hb, Bool.false_eq_true, if_false]
        exact ih _ hrest
      · by_cases hhit : idxf m j = n
        · have hb : (decide (¬ tdf ((m, j) : Nat × Nat).2 = []) &&
              decide (idxf ((m, j) : Nat × Nat).1 ((m, j) : Nat × Nat).2 = n)) = true := by
            simp [hempty, hhit]
          rw [if_neg hempty, if_pos hhit,
            if_neg (h (m, j) (List.mem_cons_self _ _) hempty hhit)]
          simp only [hb, if_true]
          rw [ih _ hrest, qadd_eq, qmul_eq, qmul_eq, qdiv_eq]
          simp only [List.map_cons, List.sum_cons]
          ring
        · have hb : (decide (¬ tdf ((m, j) : Nat × Nat).2 = []) &&
              decide (idxf ((m, j) : Nat × Nat).1 ((m, j) : Nat × Nat).2 = n)) = false := by
            simp [hhit]
          rw [if_neg hempty, if_neg hhit]
          simp only [hb, Bool.false_eq_true, if_false]
          exact ih _ hrest

theorem loop_j_spec (ntypes : Nat) (nbIdx : List Int)
    (typdict : List (Nat × List String)) (pollist : List (String × ℚ)) (tun : ℚ)
    (acoefLen : Nat) (tdf : Nat → List String) (polf : Nat → ℚ)
    (idxf : Nat → Nat → Nat) (m : Nat) (c4 : ℚ) :
    ∀ (jlist : List Nat) (result : List ℚ),
      result.length = acoefLen →
      (∀ j ∈ jlist, dget typdict j = some (tdf j)) →
      (∀ j ∈ jlist, tdf j ≠ [] → lookup_pol pollist (tdf j) = .ok (polf j)) →
      (∀ j ∈ jlist, tdf j ≠ [] →
        pair_idx ntypes nbIdx ((m : Int) - 1) ((j : Int) - 1) =
          .ok ((idxf m j : Nat) : Int) ∧ idxf m j < acoefLen) →
      ∃ result',
        loop_j ntypes nbIdx typdict pollist tun ((m : Int) - 1) c4 result jlist =
          .ok result' ∧
        result'.length = acoefLen ∧
        ∀ n x, result.get? n = some x →
          result'.get? n = some (c4ValueAt tdf idxf (fun _ => c4) polf tun n
            (jlist.map (fun j => (m, j))) x) := by
  intro jlist
  induction jlist with
  | nil =>
      intro result hlen _ _ _
      exact ⟨result, rfl, hlen, fun n x hx => by simpa [c4ValueAt] using hx⟩
  | cons j js ih =>
      intro result hlen htd hpol hidx
      have htdj := htd j (List.mem_cons_self _ _)
      have htdt := fun j hj => htd j (List.mem_cons_of_mem _ hj)
      have hpolt := fun j hj => hpol j (List.mem_cons_of_mem _ hj)
      have hidxt := fun j hj => hidx j (List.mem_cons_of_mem _ hj)
      by_cases hempty : tdf j = []
      · have hlen0 : ¬ ((tdf j).length ≥ 1) := by rw [hempty]; simp
        have hstep : loop_j ntypes nbIdx typdict pollist tun ((m : Int) - 1) c4
            result (j :: js) =
            loop_j ntypes nbIdx typdict pollist tun ((m : Int) - 1) c4 result js := by
          simp only [loop_j, htdj, bind, Except.bind, pure, Except.pure]
          rw [if_neg hlen0]
        obtain ⟨r', hr', hlen', hvals⟩ := ih result hlen htdt hpolt hidxt
        refine ⟨r', hstep ▸ hr', hlen', fun n x hx => ?_⟩
        rw [hvals n x hx]
        simp only [List.map_cons, c4ValueAt, if_pos hempty]
      · have hlen1 : (tdf j).length ≥ 1 := by
          have := List.length_pos.mpr hempty
          omega
        have hpolj := hpol j (List.mem_cons_self _ _) hempty
        obtain ⟨hpairj, hltj⟩ := hidx j (List.mem_cons_self _ _) hempty
        have hltj' : idxf m j < result.length := by rw [hlen]; exact hltj
        by_cases how : tdf j = ["OW"]
        · have hstep : loop_j ntypes nbIdx typdict pollist tun ((m : Int) - 1) c4
              result (j :: js) =
              loop_j ntypes nbIdx typdict pollist tun ((m : Int) - 1) c4
                (result.set (idxf m j) c4) js := by
            simp only [loop_j, htdj, bind, Except.bind, pure, Except.pure]
            rw [if_pos hlen1]
            simp only [hpolj, hpairj, bind, Except.bind, pure, Except.pure]
            rw [if_pos how]
            simp only [pySet_ofNat result (idxf m j) c4 hltj']
          obtain ⟨r', hr', hlen', hvals⟩ := ih (result.set (idxf m j) c4)
            (by rw [List.length_set]; exact hlen) htdt hpolt hidxt
          refine ⟨r', hstep ▸ hr', hlen', fun n x hx => ?_⟩
          by_cases hn : idxf m j = n
          · subst hn
            have hset : (result.set (idxf m j) c4).get? (idxf m j) = some c4 := by
              simp only [List.get?_eq_getElem?]
              exact List.getElem?_set_eq_of_lt _ hltj'
            rw [hvals _ _ hset]
            simp only [List.map_cons, c4ValueAt, if_neg hempty,
              if_pos (rfl : idxf m j = idxf m j), if_pos how]
            rfl
          · have hset : (result.set (idxf m j) c4).get? n = some x := by
              simp only [List.get?_eq_getElem?]
              rw [List.getElem?_set_ne hn]
              simpa [List.get?_eq_getElem?] using hx
            rw [hvals _ _ hset]
            simp only [List.map_cons, c4ValueAt, if_neg hempty, if_neg hn]
        · have hcur : result.get? (idxf m j) = some (result.get ⟨idxf m j, hltj'⟩) :=
            List.get?_eq_get hltj'
          have hstep : loop_j ntypes nbIdx typdict pollist tun ((m : Int) - 1) c4
              result (j :: js) =
              loop_j ntypes nbIdx typdict pollist tun ((m : Int) - 1) c4
                (result.set (idxf m j)
                  (qadd (result.get ⟨idxf m j, hltj'⟩)
                    (qmul (qmul (qdiv c4 WATER_POL) (polf j)) tun))) js := by
            simp only [loop_j, htdj, bind, Except.bind, pure, Except.pure]
            rw [if_pos hlen1]
            simp only [hpolj, hpairj, bind, Except.bind, pure, Except.pure]
            rw [if_neg how]
            simp only [pyGet_ofNat result (idxf m j) _ hcur, bind, Except.bind,
              pure, Except.pure]
            simp only [pySet_ofNat result (idxf m j) _ hltj']
          obtain ⟨r', hr', hlen', hvals⟩ := ih
            (result.set (idxf m j)
              (qadd (result.get ⟨idxf m j, hltj'⟩)
                (qmul (qmul (qdiv c4 WATER_POL) (polf j)) tun)))
            (by rw [List.length_set]; exact hlen) htdt hpolt hidxt
          refine ⟨r', hstep ▸ hr', hlen', fun n x hx => ?_⟩
          by_cases hn : idxf m j = n
          · subst hn
            have hxcur : x = result.get ⟨idxf m j, hltj'⟩ := by
              rw [hcur] at hx
              exact (Option.some_inj.mp hx).symm
            have hset : (result.set (idxf m j)
                (qadd (result.get ⟨idxf m j, hltj'⟩)
                  (qmul (qmul (qdiv c4 WATER_POL) (polf j)) tun))).get? (idxf m j) =
                some (qadd (result.get ⟨idxf m j, hltj'⟩)
                  (qmul (qmul (qdiv c4 WATER_POL) (polf j)) tun)) := by
              simp only [List.get?_eq_getElem?]
              exact List.getElem?_set_eq_of_lt _ hltj'
            rw [hvals _ _ hset]
            simp only [List.map_cons, c4ValueAt, if_neg hempty,
              if_pos (rfl : idxf m j = idxf m j), if_neg how, hxcur]
            rfl
          · have hset : (result.set (idxf m j)
                (qadd (result.get ⟨idxf m j, hltj'⟩)
                  (qmul (qmul (qdiv c4 WATER_POL) (polf j)) tun))).get? n = some x := by
              simp only [List.get?_eq_getElem?]
              rw [List.getElem?_set_ne hn]
              simpa [List.get?_eq_getElem?] using hx
            rw [hvals _ _ hset]
            simp only [List.map_cons, c4ValueAt, if_neg hempty, if_neg hn]

theorem loop_met_spec (ntypes : Nat) (nbIdx : List Int)
    (typdict : List (Nat × List String)) (pollist : List (String × ℚ)) (tun : ℚ)
    (acoefLen : Nat) (tdf : Nat → List String) (polf : Nat → ℚ)
    (idxf : Nat → Nat → Nat) (c4f : Nat → ℚ) (c4OfInd : List (Nat × ℚ)) :
    ∀ (mets : List Nat) (result : List ℚ),
      result.length = acoefLen →
      (∀ j ∈ (List.range ntypes).map (fun t => t + 1),
        dget typdict j = some (tdf j)) →
      (∀ j ∈ (List.range ntypes).map (fun t => t + 1), tdf j ≠ [] →
        lookup_pol pollist (tdf j) = .ok (polf j)) →
      (∀ m ∈ mets, ∀ j ∈ (List.range ntypes).map (fun t => t + 1), tdf j ≠ [] →
        pair_idx ntypes nbIdx ((m : Int) - 1) ((j : Int) - 1) =
          .ok ((idxf m j : Nat) : Int) ∧ idxf m j < acoefLen) →
      (∀ m ∈ mets, dget c4OfInd m = some (c4f m)) →
      ∃ result',
        loop_met ntypes nbIdx typdict pollist tun c4OfInd result mets = .ok result' ∧
        result'.length = acoefLen ∧
        ∀ n x, result.get? n = some x →
          result'.get? n = some (c4ValueAt tdf idxf c4f polf tun n
            (metPairs mets ntypes) x) := by
  intro mets
  induction mets with
  | nil =>
      intro result hlen _ _ _ _
      exact ⟨result, rfl, hlen, fun n x hx => by
        simpa [metPairs, c4ValueAt] using hx⟩
  | cons m ms ih =>
      intro result hlen htd hpol hidx hc4
      have hc4m := hc4 m (List.mem_cons_self _ _)
      obtain ⟨r1, hr1, hlen1, hvals1⟩ :=
        loop_j_spec ntypes nbIdx typdict pollist tun acoefLen tdf polf idxf m (c4f m)
          ((List.range ntypes).map (fun t => t + 1)) result hlen htd hpol
          (hidx m (List.mem_cons_self _ _))
      have hstep : loop_met ntypes nbIdx typdict pollist tun c4OfInd result (m :: ms) =
          loop_met ntypes nbIdx typdict pollist tun c4OfInd r1 ms := by
        simp only [loop_met, hc4m, bind, Except.bind, pure, Except.pure, hr1]
      obtain ⟨r', hr', hlen', hvals'⟩ := ih r1 hlen1 htd hpol
        (fun m' hm' => hidx m' (List.mem_cons_of_mem _ hm'))
        (fun m' hm' => hc4 m' (List.mem_cons_of_mem _ hm'))
      refine ⟨r', hstep ▸ hr', hlen', fun n x hx => ?_⟩
      rw [hvals' n _ (hvals1 n x hx)]
      have hsplit : metPairs (m :: ms) ntypes =
          ((List.range ntypes).map (fun t => t + 1)).map (fun j => (m, j)) ++
            metPairs ms ntypes := by
        simp [metPairs, List.map_map, Function.comp]
      rw [hsplit, c4ValueAt_append]
      rw [c4ValueAt_congr tdf idxf (fun _ => c4f m) c4f polf tun n _ x ?_]
      intro p hp
      obtain ⟨j, _, rfl⟩ := List.mem_map.mp hp
      rfl

/-- C9: the C4 coefficient assembly of `params1264`.  The computation
succeeds and, writing the visited (ion type, partner type) pairs in
processing order: (a) a pair whose combined nonbonded type's only label is
the water oxygen `OW`, and whose flat pair index no other visited pair
shares, receives the tabulated C4 value directly; (b) an index hit by no
water-oxygen pair holds exactly the sum of
`c4 / WATER_POL * pol * tunfactor` over all visited pairs mapping to it —
contributions from multiple ion types to one combined index accumulate
additively.  The hypothesis functions `tdf`, `polf`, `idxf`, `c4f` name
the values of the type-dictionary, polarizability, pair-index and C4
lookups, which must all succeed. -/
theorem params1264_c4_assembly (ntypes : Nat) (nbIdx : List Int)
    (typs : List String) (typinds : List Nat) (pollist : List (String × ℚ))
    (mets : List Nat) (c4OfInd : List (Nat × ℚ)) (tun : ℚ) (acoefLen : Nat)
    (tdf : Nat → List String) (polf : Nat → ℚ) (idxf : Nat → Nat → Nat)
    (c4f : Nat → ℚ)
    (htd : ∀ j ∈ (List.range ntypes).map (fun t => t + 1),
      dget (build_typdict typs typinds ntypes) j = some (tdf j))
    (hpol : ∀ j ∈ (List.range ntypes).map (fun t => t + 1), tdf j ≠ [] →
      exOk (lookup_pol pollist (tdf j)) = some (polf j))
    (hidx : ∀ m ∈ mets, ∀ j ∈ (List.range ntypes).map (fun t => t + 1), tdf j ≠ [] →
      exOk (pair_idx ntypes nbIdx ((m : Int) - 1) ((j : Int) - 1)) =
        some ((idxf m j : Nat) : Int) ∧ idxf m j < acoefLen)
    (hc4 : ∀ m ∈ mets, dget c4OfInd m = some (c4f m)) :
    ∃ result,
      params1264_core ntypes nbIdx typs typinds pollist mets c4OfInd tun acoefLen =
        .ok result ∧
      (∀ m0 j0, (m0, j0) ∈ metPairs mets ntypes → tdf j0 = ["OW"] →
        (∀ p ∈ metPairs mets ntypes, tdf p.2 ≠ [] →
          idxf p.1 p.2 = idxf m0 j0 → p = (m0, j0)) →
        result.get? (idxf m0 j0) = some (c4f m0)) ∧
      (∀ n, n < acoefLen →
        (∀ p ∈ metPairs mets ntypes, tdf p.2 ≠ [] → idxf p.1 p.2 = n →
          tdf p.2 ≠ ["OW"]) →
        result.get? n =
          some (((metPairs mets ntypes).filter
              (fun p => decide (¬ tdf p.2 = []) && decide (idxf p.1 p.2 = n))).map
            (fun p => c4f p.1 / WATER_POL * polf p.2 * tun)).sum) := by
  obtain ⟨result, hrun, hlen, hvals⟩ :=
    loop_met_spec ntypes nbIdx (build_typdict typs typinds ntypes) pollist tun
      acoefLen tdf polf idxf c4f c4OfInd mets (List.replicate acoefLen 0)
      (List.length_replicate _ _) htd
      (fun j hj hne => (exOk_eq_some _ _).mp (hpol j hj hne))
      (fun m hm j hj hne =>
        ⟨(exOk_eq_some _ _).mp (hidx m hm j hj hne).1, (hidx m hm j hj hne).2⟩)
      hc4
  refine ⟨result, hrun, ?_, ?_⟩
  · intro m0 j0 hmem how huniq
    have hm0 : m0 ∈ mets := by
      obtain ⟨m, hm, hp⟩ := List.mem_flatMap.mp hmem
      obtain ⟨t, _, hpq⟩ := List.mem_map.mp hp
      cases hpq
      exact hm
    have hj0 : j0 ∈ (List.range ntypes).map (fun t => t + 1) := by
      obtain ⟨m, _, hp⟩ := List.mem_flatMap.mp hmem
      obtain ⟨t, ht, hpq⟩ := List.mem_map.mp hp
      cases hpq
      exact List.mem_map.mpr ⟨t, ht, rfl⟩
    have hne : tdf j0 ≠ [] := by rw [how]; simp
    have hlt : idxf m0 j0 < acoefLen := (hidx m0 hm0 j0 hj0 hne).2
    have h0 : (List.replicate acoefLen (0 : ℚ)).get? (idxf m0 j0) = some 0 := by
      simp [List.get?_eq_getElem?, List.getElem?_replicate, hlt]
    rw [hvals _ 0 h0]
    rw [c4ValueAt_unique_ow tdf idxf c4f polf tun m0 j0 _ 0 how hmem huniq]
  · intro n hn hnoow
    have h0 : (List.replicate acoefLen (0 : ℚ)).get? n = some 0 := by
      simp [List.get?_eq_getElem?, List.getElem?_replicate, hn]
    rw [hvals n 0 h0, c4ValueAt_no_ow tdf idxf c4f polf tun n _ 0 hnoow, zero_add]

/-- C9 witness: the two-type example applied to the claim theorem: the
lookups succeed and both conclusions are available for the metal/OW
setup. -/
theorem params1264_c4_assembly_witness :
    (∀ j ∈ (List.range 2).map (fun t => t + 1),
      dget (build_typdict ["MG", "OW"] [1, 2] 2) j = some (exTdf j)) ∧
    (∀ j ∈ (List.range 2).map (fun t => t + 1), exTdf j ≠ [] →
      exOk (lookup_pol exPollist (exTdf j)) = some (exPolf j)) ∧
    (∀ m ∈ ([1] : List Nat), ∀ j ∈ (List.range 2).map (fun t => t + 1),
      exTdf j ≠ [] →
      exOk (pair_idx 2 [1, 2, 2, 3] ((m : Int) - 1) ((j : Int) - 1)) =
        some ((exIdxf m j : Nat) : Int) ∧ exIdxf m j < 3) ∧
    (∀ m ∈ ([1] : List Nat), dget [(1, q 1329 10)] m = some (exC4f m)) ∧
    (∃ result,
      params1264_core 2 [1, 2, 2, 3] ["MG", "OW"] [1, 2] exPollist [1]
        [(1, q 1329 10)] 1 3 = .ok result ∧
      (∀ m0 j0, (m0, j0) ∈ metPairs [1] 2 → exTdf j0 = ["OW"] →
        (∀ p ∈ metPairs [1] 2, exTdf p.2 ≠ [] →
          exIdxf p.1 p.2 = exIdxf m0 j0 → p = (m0, j0)) →
        result.get? (exIdxf m0 j0) = some (exC4f m0)) ∧
      (∀ n, n < 3 →
        (∀ p ∈ metPairs [1] 2, exTdf p.2 ≠ [] → exIdxf p.1 p.2 = n →
          exTdf p.2 ≠ ["OW"]) →
        result.get? n =
          some (((metPairs [1] 2).filter
              (fun p => decide (¬ exTdf p.2 = []) && decide (exIdxf p.1 p.2 = n))).map
            (fun p => exC4f p.1 / WATER_POL * exPolf p.2 * 1)).sum)) :=
  ⟨by decide, by decide, by decide, by decide,
   params1264_c4_assembly 2 [1, 2, 2, 3] ["MG", "OW"] [1, 2] exPollist [1]
     [(1, q 1329 10)] 1 3 exTdf exPolf exIdxf exC4f (by decide) (by decide)
     (by decide) (by decide)⟩

end ParmEd
